import Mathlib

/-!
Verification of the recoil-autohost controller against its specification.

This file shallowly embeds the core data model and operations of the
repository (the autohost UDP codec, the events buffer, the games manager,
the autohost adapter's update projection, the multi index, and the engine
runner's shutdown discipline) and proves or refutes the frozen claims
about them.

Modelling conventions:
- A JavaScript string is a list of UTF-16 code units (`List Nat`); `.length`
  is the list length, `s[0]` is the head unit, and `Buffer.from(s, 'utf8')`
  is `utf16ToUtf8`.
- A Node `Buffer` is a list of bytes (`List Nat`).
- Machine integers are `Nat`/`Int` with explicit wrap where it matters.
- A JavaScript `Map`/`Set` is an association list / list without duplicates.
- Fallible code returns `Except`/`Option`; a thrown exception that the source
  does not catch is an `Except.error`; an unguarded out-of-range buffer read
  is `Option.none` (distinct from a thrown `PacketParseError`).
-/

namespace RecoilAutohost

/-! ## Byte readers (Node Buffer API over `List Nat`)

`none` models a read outside the buffer, which in Node would throw a
`RangeError` rather than a `PacketParseError`. -/

/-- `buf.readUInt8(i)`. -/
def readUInt8 (msg : List Nat) (i : Nat) : Option Nat :=
  msg.get? i

/-- `buf.readUInt16LE(i)`. -/
def readUInt16LE (msg : List Nat) (i : Nat) : Option Nat := do
  let b0 ← msg.get? i
  let b1 ← msg.get? (i + 1)
  pure (b0 + 256 * b1)

/-- `buf.readUInt32LE(i)`. -/
def readUInt32LE (msg : List Nat) (i : Nat) : Option Nat := do
  let b0 ← msg.get? i
  let b1 ← msg.get? (i + 1)
  let b2 ← msg.get? (i + 2)
  let b3 ← msg.get? (i + 3)
  pure (b0 + 256 * b1 + 65536 * b2 + 16777216 * b3)

/-- `buf.readInt32LE(i)`: two's complement of the little-endian 32-bit word. -/
def readInt32LE (msg : List Nat) (i : Nat) : Option Int :=
  (readUInt32LE msg i).map fun v =>
    if v < 2 ^ 31 then (v : Int) else (v : Int) - 2 ^ 32

/-- `buf.readFloatLE(i)` modelled as the raw little-endian 32-bit pattern;
only the in-boundedness of the read matters for the claims. -/
def readFloatLE (msg : List Nat) (i : Nat) : Option Nat :=
  readUInt32LE msg i

/-- `buf.toString(enc, a, b)` modelled as the raw byte slice `[a, b)`;
decoding bytes to a string never throws in Node (replacement characters). -/
def bufSlice (msg : List Nat) (a b : Nat) : List Nat :=
  (msg.drop a).take (b - a)

/-- `buf.toString(enc, a)`: slice from `a` to the end of the buffer. -/
def bufSliceFrom (msg : List Nat) (a : Nat) : List Nat :=
  msg.drop a

/-- A run of `readUInt8` calls at offsets `off, off+1, …, off+n-1`. -/
def readBytes (msg : List Nat) (off : Nat) : Nat → Option (List Nat)
  | 0 => some []
  | n + 1 => do
    let b ← readUInt8 msg off
    let rest ← readBytes msg (off + 1) n
    pure (b :: rest)

/-! ## Autohost wire codec: event model (engineAutohostInterface) -/

/-- `LeaveReason` from the engine autohost interface. -/
inductive LeaveReason
  | LOST_CONNECTION
  | LEFT
  | KICKED
  deriving DecidableEq, Repr

/-- `ReadyState` from the engine autohost interface. -/
inductive ReadyState
  | NOT_READY
  | READY
  | FORCED
  | FAILED
  deriving DecidableEq, Repr

/-- `ChatDestination` from the engine autohost interface. -/
inductive ChatDestination
  | TO_PLAYER
  | TO_ALLIES
  | TO_SPECTATORS
  | TO_EVERYONE
  deriving DecidableEq, Repr

/-- `LuaMsgScript` from the engine autohost interface. -/
inductive LuaMsgScript
  | UI
  | GAIA
  | RULES
  deriving DecidableEq, Repr

/-- `LuaMsgUIMode` from the engine autohost interface. -/
inductive LuaMsgUIMode
  | ALL
  | ALLIES
  | SPECTATORS
  deriving DecidableEq, Repr

/-- The `TeamStatistics` record; float fields store the raw 32-bit pattern. -/
structure TeamStatistics where
  frame : Int
  metalUsed : Nat
  energyUsed : Nat
  metalProduced : Nat
  energyProduced : Nat
  metalExcess : Nat
  energyExcess : Nat
  metalReceived : Nat
  energyReceived : Nat
  metalSent : Nat
  energySent : Nat
  damageDealt : Nat
  damageReceived : Nat
  unitsProduced : Int
  unitsDied : Int
  unitsReceived : Int
  unitsSent : Int
  unitsCaptured : Int
  unitsOutCaptured : Int
  unitsKilled : Int
  deriving DecidableEq, Repr

/-- The `Event` union produced by `parsePacket`.  String-typed fields hold
the raw byte slices of the datagram. -/
inductive Event
  | serverStarted
  | serverQuit
  | serverStartPlaying (gameId : List Nat) (demoPath : List Nat)
  | serverGameOver (player : Nat) (winningAllyTeams : List Nat)
  | serverMessage (message : List Nat)
  | serverWarning (message : List Nat)
  | playerJoined (player : Nat) (name : List Nat)
  | playerLeft (player : Nat) (reason : LeaveReason)
  | playerReady (player : Nat) (state : ReadyState)
  | playerChat (fromPlayer : Nat) (toPlayer : Option Nat)
      (destination : ChatDestination) (message : List Nat)
  | playerDefeated (player : Nat)
  | gameLuaMsg (player : Nat) (script : LuaMsgScript) (uiMode : Option LuaMsgUIMode)
      (data : List Nat)
  | gameTeamStat (teamNumber : Nat) (stats : TeamStatistics)
  deriving DecidableEq, Repr

/-- `PacketParseError`: the message string of the thrown error, by case. -/
inductive PacketParseError
  | emptyPacket
  | invalidLength (evType : Nat)
  | messageTooShort (evType : Nat)
  | sizeMismatch (evType : Nat)
  | invalidLeaveReason (reason : Nat)
  | invalidReadyState (state : Nat)
  | invalidLuaPacketType (packetType : Nat)
  | invalidLuaScript (script : Nat)
  | invalidLuaUIMode (uiMode : Nat)
  | unknownEventType (evType : Nat)
  deriving DecidableEq, Repr

/-- `parsePacket` case `SERVER_STARTED` / `SERVER_QUIT` (exact length 1). -/
def parseLen1 (msg : List Nat) (evType : Nat) (ev : Event) :
    Option (Except PacketParseError Event) :=
  if msg.length ≠ 1 then some (.error (.invalidLength evType))
  else some (.ok ev)

/-- `parsePacket` case `SERVER_STARTPLAYING`. -/
def parseServerStartPlaying (msg : List Nat) : Option (Except PacketParseError Event) :=
  if msg.length < 5 + 16 then some (.error (.messageTooShort 2))
  else (readUInt32LE msg 1).bind fun msgSize =>
    if msgSize ≠ msg.length then some (.error (.sizeMismatch 2))
    else some (.ok (.serverStartPlaying (bufSlice msg 5 (5 + 16)) (bufSliceFrom msg (5 + 16))))

/-- `parsePacket` case `SERVER_GAMEOVER`. -/
def parseServerGameOver (msg : List Nat) : Option (Except PacketParseError Event) :=
  if msg.length < 3 then some (.error (.messageTooShort 3))
  else (readUInt8 msg 1).bind fun msgSize =>
    if msgSize ≠ msg.length then some (.error (.sizeMismatch 3))
    else (readBytes msg 3 (msgSize - 3)).bind fun winningAllyTeams =>
      (readUInt8 msg 2).bind fun player =>
        some (.ok (.serverGameOver player winningAllyTeams))

/-- `parsePacket` case `PLAYER_JOINED`. -/
def parsePlayerJoined (msg : List Nat) : Option (Except PacketParseError Event) :=
  if msg.length < 3 then some (.error (.messageTooShort 10))
  else (readUInt8 msg 1).bind fun player =>
    some (.ok (.playerJoined player (bufSliceFrom msg 2)))

/-- `parsePacket` case `PLAYER_LEFT`. -/
def parsePlayerLeft (msg : List Nat) : Option (Except PacketParseError Event) :=
  if msg.length ≠ 3 then some (.error (.invalidLength 11))
  else (readUInt8 msg 2).bind fun reason =>
    if reason > 2 then some (.error (.invalidLeaveReason reason))
    else (readUInt8 msg 1).bind fun player =>
      let r : LeaveReason :=
        if reason = 0 then .LOST_CONNECTION else if reason = 1 then .LEFT else .KICKED
      some (.ok (.playerLeft player r))

/-- `parsePacket` case `PLAYER_READY`. -/
def parsePlayerReady (msg : List Nat) : Option (Except PacketParseError Event) :=
  if msg.length ≠ 3 then some (.error (.invalidLength 12))
  else (readUInt8 msg 2).bind fun state =>
    if state > 3 then some (.error (.invalidReadyState state))
    else (readUInt8 msg 1).bind fun player =>
      let s : ReadyState :=
        if state = 0 then .NOT_READY else if state = 1 then .READY
        else if state = 2 then .FORCED else .FAILED
      some (.ok (.playerReady player s))

/-- `parsePacket` case `PLAYER_CHAT`. -/
def parsePlayerChat (msg : List Nat) : Option (Except PacketParseError Event) :=
  if msg.length < 3 then some (.error (.messageTooShort 13))
  else (readUInt8 msg 2).bind fun destination =>
    (readUInt8 msg 1).bind fun fromPlayer =>
      let message := bufSliceFrom msg 3
      if destination = 252 then some (.ok (.playerChat fromPlayer none .TO_ALLIES message))
      else if destination = 253 then
        some (.ok (.playerChat fromPlayer none .TO_SPECTATORS message))
      else if destination = 254 then
        some (.ok (.playerChat fromPlayer none .TO_EVERYONE message))
      else some (.ok (.playerChat fromPlayer (some destination) .TO_PLAYER message))

/-- `parsePacket` case `PLAYER_DEFEATED`. -/
def parsePlayerDefeated (msg : List Nat) : Option (Except PacketParseError Event) :=
  if msg.length ≠ 2 then some (.error (.invalidLength 14))
  else (readUInt8 msg 1).bind fun player =>
    some (.ok (.playerDefeated player))

/-- `parsePacket` case `GAME_LUAMSG`. -/
def parseGameLuaMsg (msg : List Nat) : Option (Except PacketParseError Event) :=
  if msg.length < 8 then some (.error (.messageTooShort 20))
  else (readUInt8 msg 1).bind fun packetType =>
    if packetType ≠ 50 then some (.error (.invalidLuaPacketType packetType))
    else (readUInt16LE msg 2).bind fun packetSize =>
      if packetSize ≠ msg.length - 1 then some (.error (.sizeMismatch 20))
      else (readUInt16LE msg 5).bind fun script =>
        if script ≠ 2000 ∧ script ≠ 300 ∧ script ≠ 100 then
          some (.error (.invalidLuaScript script))
        else (readUInt8 msg 4).bind fun player =>
          let data := bufSliceFrom msg 8
          (readUInt8 msg 7).bind fun uiMode =>
            if script = 2000 then
              if uiMode = 0 then some (.ok (.gameLuaMsg player .UI (some .ALL) data))
              else if uiMode = 0x61 then
                some (.ok (.gameLuaMsg player .UI (some .ALLIES) data))
              else if uiMode = 0x73 then
                some (.ok (.gameLuaMsg player .UI (some .SPECTATORS) data))
              else some (.error (.invalidLuaUIMode uiMode))
            else if uiMode ≠ 0 then some (.error (.invalidLuaUIMode uiMode))
            else
              some (.ok (.gameLuaMsg player (if script = 300 then .GAIA else .RULES) none data))

/-- `GAME_TEAMSTAT` reads, offsets 6–26 (first six `readFloatLE` calls). -/
def readTeamStatFloatsA (msg : List Nat) : Option (Nat × Nat × Nat × Nat × Nat × Nat) :=
  (readFloatLE msg 6).bind fun metalUsed =>
    (readFloatLE msg 10).bind fun energyUsed =>
      (readFloatLE msg 14).bind fun metalProduced =>
        (readFloatLE msg 18).bind fun energyProduced =>
          (readFloatLE msg 22).bind fun metalExcess =>
            (readFloatLE msg 26).bind fun energyExcess =>
              some (metalUsed, energyUsed, metalProduced, energyProduced, metalExcess,
                energyExcess)

/-- `GAME_TEAMSTAT` reads, offsets 30–50 (last six `readFloatLE` calls). -/
def readTeamStatFloatsB (msg : List Nat) : Option (Nat × Nat × Nat × Nat × Nat × Nat) :=
  (readFloatLE msg 30).bind fun metalReceived =>
    (readFloatLE msg 34).bind fun energyReceived =>
      (readFloatLE msg 38).bind fun metalSent =>
        (readFloatLE msg 42).bind fun energySent =>
          (readFloatLE msg 46).bind fun damageDealt =>
            (readFloatLE msg 50).bind fun damageReceived =>
              some (metalReceived, energyReceived, metalSent, energySent, damageDealt,
                damageReceived)

/-- `GAME_TEAMSTAT` reads, offsets 54–78 (the seven `readInt32LE` calls). -/
def readTeamStatInts (msg : List Nat) : Option (Int × Int × Int × Int × Int × Int × Int) :=
  (readInt32LE msg 54).bind fun unitsProduced =>
    (readInt32LE msg 58).bind fun unitsDied =>
      (readInt32LE msg 62).bind fun unitsReceived =>
        (readInt32LE msg 66).bind fun unitsSent =>
          (readInt32LE msg 70).bind fun unitsCaptured =>
            (readInt32LE msg 74).bind fun unitsOutCaptured =>
              (readInt32LE msg 78).bind fun unitsKilled =>
                some (unitsProduced, unitsDied, unitsReceived, unitsSent, unitsCaptured,
                  unitsOutCaptured, unitsKilled)

/-- `parsePacket` case `GAME_TEAMSTAT` (20 fixed little-endian reads, split
into the helpers above only to keep compiled code small). -/
def parseGameTeamStat (msg : List Nat) : Option (Except PacketParseError Event) :=
  if msg.length ≠ 82 then some (.error (.invalidLength 60))
  else (readInt32LE msg 2).bind fun frame =>
    (readTeamStatFloatsA msg).bind
      fun (metalUsed, energyUsed, metalProduced, energyProduced, metalExcess,
        energyExcess) =>
      (readTeamStatFloatsB msg).bind
        fun (metalReceived, energyReceived, metalSent, energySent, damageDealt,
          damageReceived) =>
        (readTeamStatInts msg).bind
          fun (unitsProduced, unitsDied, unitsReceived, unitsSent, unitsCaptured,
            unitsOutCaptured, unitsKilled) =>
          (readUInt8 msg 1).bind fun teamNumber =>
            some (.ok (.gameTeamStat teamNumber
              { frame, metalUsed, energyUsed, metalProduced, energyProduced, metalExcess,
                energyExcess, metalReceived, energyReceived, metalSent, energySent,
                damageDealt, damageReceived, unitsProduced, unitsDied, unitsReceived,
                unitsSent, unitsCaptured, unitsOutCaptured, unitsKilled }))

/-- `parsePacket(msg)`: decodes one autohost UDP datagram.

`some (.ok ev)` is a successful parse, `some (.error e)` a thrown
`PacketParseError`, and `none` an out-of-range buffer read that would
surface as a different exception (the claims say this never happens).
The `switch` on the leading byte is written as an if-chain. -/
def parsePacket (msg : List Nat) : Option (Except PacketParseError Event) :=
  if msg.length < 1 then some (.error .emptyPacket)
  else (readUInt8 msg 0).bind fun type =>
    if type = 0 then parseLen1 msg 0 .serverStarted
    else if type = 1 then parseLen1 msg 1 .serverQuit
    else if type = 2 then parseServerStartPlaying msg
    else if type = 3 then parseServerGameOver msg
    else if type = 4 then some (.ok (.serverMessage (bufSliceFrom msg 1)))
    else if type = 5 then some (.ok (.serverWarning (bufSliceFrom msg 1)))
    else if type = 10 then parsePlayerJoined msg
    else if type = 11 then parsePlayerLeft msg
    else if type = 12 then parsePlayerReady msg
    else if type = 13 then parsePlayerChat msg
    else if type = 14 then parsePlayerDefeated msg
    else if type = 20 then parseGameLuaMsg msg
    else if type = 60 then parseGameTeamStat msg
    else some (.error (.unknownEventType type))

/-! ## C10: totality of `parsePacket` -/

/-- Bind in `Option` preserves definedness. -/
theorem bindIsSome {α β : Type} {o : Option α} {f : α → Option β}
    (h1 : o.isSome) (h2 : ∀ a, (f a).isSome) : (o.bind f).isSome := by
  cases o with
  | none => simp at h1
  | some a => exact h2 a

theorem readUInt8_isSome {msg : List Nat} {i : Nat} (h : i < msg.length) :
    (readUInt8 msg i).isSome := by
  rw [readUInt8, List.get?_eq_get h]; rfl

theorem readUInt16LE_isSome {msg : List Nat} {i : Nat} (h : i + 1 < msg.length) :
    (readUInt16LE msg i).isSome := by
  rw [readUInt16LE]
  simp only [bind, Option.bind]
  rw [List.get?_eq_get (by omega), List.get?_eq_get h]
  rfl

theorem readUInt32LE_isSome {msg : List Nat} {i : Nat} (h : i + 3 < msg.length) :
    (readUInt32LE msg i).isSome := by
  rw [readUInt32LE]
  simp only [bind, Option.bind]
  rw [List.get?_eq_get (by omega), List.get?_eq_get (by omega),
    List.get?_eq_get (by omega), List.get?_eq_get h]
  rfl

theorem readInt32LE_isSome {msg : List Nat} {i : Nat} (h : i + 3 < msg.length) :
    (readInt32LE msg i).isSome := by
  rw [readInt32LE]
  have h2 := readUInt32LE_isSome h
  cases hv : readUInt32LE msg i with
  | none => rw [hv] at h2; simp at h2
  | some v => rfl

theorem readFloatLE_isSome {msg : List Nat} {i : Nat} (h : i + 3 < msg.length) :
    (readFloatLE msg i).isSome :=
  readUInt32LE_isSome h

theorem readBytes_isSome {msg : List Nat} {n : Nat} :
    ∀ {off : Nat}, off + n ≤ msg.length → (readBytes msg off n).isSome := by
  induction n with
  | zero => intro off _; rfl
  | succ n ih =>
    intro off h
    rw [readBytes]
    simp only [bind, Option.bind]
    cases hb : readUInt8 msg off with
    | none =>
      have := @readUInt8_isSome msg off (by omega)
      rw [hb] at this; simp at this
    | some b =>
      have hrest := @ih (off + 1) (by omega)
      cases hr : readBytes msg (off + 1) n with
      | none => rw [hr] at hrest; simp at hrest
      | some rest => rfl

/-- Definedness of an `if` from definedness of both branches (the branch
proofs may use the decided condition). -/
theorem isSomeIteH {α : Type} {c : Prop} [Decidable c] {a b : Option α}
    (ha : c → a.isSome) (hb : ¬c → b.isSome) : (if c then a else b).isSome := by
  by_cases h : c
  · rw [if_pos h]; exact ha h
  · rw [if_neg h]; exact hb h

theorem parseLen1_isSome (msg : List Nat) (t : Nat) (ev : Event) :
    (parseLen1 msg t ev).isSome := by
  rw [parseLen1]; split <;> rfl

theorem parseServerStartPlaying_isSome (msg : List Nat) :
    (parseServerStartPlaying msg).isSome := by
  rw [parseServerStartPlaying]
  split
  · rfl
  · next hlen =>
    exact bindIsSome (readUInt32LE_isSome (by omega)) fun msgSize => by split <;> rfl

theorem parseServerGameOver_isSome (msg : List Nat) :
    (parseServerGameOver msg).isSome := by
  rw [parseServerGameOver]
  split
  · rfl
  · next hlen =>
    refine bindIsSome (readUInt8_isSome (by omega)) fun msgSize => ?hms
    split
    · rfl
    · next hsz =>
      refine bindIsSome (readBytes_isSome ?hb) fun wat => ?hwat
      · omega
      · exact bindIsSome (readUInt8_isSome (by omega)) fun player => rfl

theorem parsePlayerJoined_isSome (msg : List Nat) :
    (parsePlayerJoined msg).isSome := by
  rw [parsePlayerJoined]
  split
  · rfl
  · next hlen => exact bindIsSome (readUInt8_isSome (by omega)) fun player => rfl

theorem parsePlayerLeft_isSome (msg : List Nat) :
    (parsePlayerLeft msg).isSome := by
  rw [parsePlayerLeft]
  split
  · rfl
  · next hlen =>
    refine bindIsSome (readUInt8_isSome (by omega)) fun reason => ?hr
    split
    · rfl
    · exact bindIsSome (readUInt8_isSome (by omega)) fun player => rfl

theorem parsePlayerReady_isSome (msg : List Nat) :
    (parsePlayerReady msg).isSome := by
  rw [parsePlayerReady]
  split
  · rfl
  · next hlen =>
    refine bindIsSome (readUInt8_isSome (by omega)) fun state => ?hs
    split
    · rfl
    · exact bindIsSome (readUInt8_isSome (by omega)) fun player => rfl

theorem parsePlayerChat_isSome (msg : List Nat) :
    (parsePlayerChat msg).isSome := by
  rw [parsePlayerChat]
  split
  · rfl
  · next hlen =>
    refine bindIsSome (readUInt8_isSome (by omega)) fun dest => ?hd
    refine bindIsSome (readUInt8_isSome (by omega)) fun fromPlayer => ?hf
    split
    · rfl
    · split
      · rfl
      · split <;> rfl

theorem parsePlayerDefeated_isSome (msg : List Nat) :
    (parsePlayerDefeated msg).isSome := by
  rw [parsePlayerDefeated]
  split
  · rfl
  · next hlen => exact bindIsSome (readUInt8_isSome (by omega)) fun player => rfl

theorem parseGameLuaMsg_isSome (msg : List Nat) :
    (parseGameLuaMsg msg).isSome := by
  rw [parseGameLuaMsg]
  refine isSomeIteH (fun _ => rfl) fun hlen => ?h8
  refine bindIsSome (readUInt8_isSome (by omega)) fun packetType => ?hp
  refine isSomeIteH (fun _ => rfl) fun hpt => ?hpt2
  refine bindIsSome (readUInt16LE_isSome (by omega)) fun packetSize => ?hps
  refine isSomeIteH (fun _ => rfl) fun hs => ?hs2
  refine bindIsSome (readUInt16LE_isSome (by omega)) fun script => ?hsc
  refine isSomeIteH (fun _ => rfl) fun hv => ?hv2
  refine bindIsSome (readUInt8_isSome (by omega)) fun player => ?hpl
  refine bindIsSome (readUInt8_isSome (by omega)) fun uiMode => ?hui
  refine isSomeIteH (fun _ => ?hifui) fun _ => ?helse
  · refine isSomeIteH (fun _ => rfl) fun h1 => ?u1
    refine isSomeIteH (fun _ => rfl) fun h2 => ?u2
    exact isSomeIteH (fun _ => rfl) fun h3 => rfl
  · exact isSomeIteH (fun _ => rfl) fun h4 => rfl

theorem readTeamStatFloatsA_isSome {msg : List Nat} (h : msg.length = 82) :
    (readTeamStatFloatsA msg).isSome := by
  rw [readTeamStatFloatsA]
  refine bindIsSome (readFloatLE_isSome (by omega)) fun a => ?h1
  refine bindIsSome (readFloatLE_isSome (by omega)) fun b => ?h2
  refine bindIsSome (readFloatLE_isSome (by omega)) fun c => ?h3
  refine bindIsSome (readFloatLE_isSome (by omega)) fun d => ?h4
  refine bindIsSome (readFloatLE_isSome (by omega)) fun e => ?h5
  exact bindIsSome (readFloatLE_isSome (by omega)) fun f => rfl

theorem readTeamStatFloatsB_isSome {msg : List Nat} (h : msg.length = 82) :
    (readTeamStatFloatsB msg).isSome := by
  rw [readTeamStatFloatsB]
  refine bindIsSome (readFloatLE_isSome (by omega)) fun a => ?h1
  refine bindIsSome (readFloatLE_isSome (by omega)) fun b => ?h2
  refine bindIsSome (readFloatLE_isSome (by omega)) fun c => ?h3
  refine bindIsSome (readFloatLE_isSome (by omega)) fun d => ?h4
  refine bindIsSome (readFloatLE_isSome (by omega)) fun e => ?h5
  exact bindIsSome (readFloatLE_isSome (by omega)) fun f => rfl

theorem readTeamStatInts_isSome {msg : List Nat} (h : msg.length = 82) :
    (readTeamStatInts msg).isSome := by
  rw [readTeamStatInts]
  refine bindIsSome (readInt32LE_isSome (by omega)) fun a => ?h1
  refine bindIsSome (readInt32LE_isSome (by omega)) fun b => ?h2
  refine bindIsSome (readInt32LE_isSome (by omega)) fun c => ?h3
  refine bindIsSome (readInt32LE_isSome (by omega)) fun d => ?h4
  refine bindIsSome (readInt32LE_isSome (by omega)) fun e => ?h5
  refine bindIsSome (readInt32LE_isSome (by omega)) fun f => ?h6
  exact bindIsSome (readInt32LE_isSome (by omega)) fun g => rfl

theorem bindIsSome2 {α β : Type} {o : Option α} {f : α → Option β}
    (h1 : o.isSome) (h2 : ∀ a, (f a).isSome) : (Bind.bind o f).isSome :=
  bindIsSome h1 h2

theorem parseGameTeamStat_isSome (msg : List Nat) :
    (parseGameTeamStat msg).isSome := by
  rw [parseGameTeamStat]
  split
  · rfl
  · next hlen =>
    have h82 : msg.length = 82 := by omega
    refine bindIsSome (readInt32LE_isSome (by omega)) fun frame => ?hf
    refine bindIsSome (readTeamStatFloatsA_isSome h82) fun fa => ?ha
    refine bindIsSome ?hbB fun fb => ?hb
    · exact readTeamStatFloatsB_isSome h82
    · refine bindIsSome ?hbI fun fi => ?hi
      · exact readTeamStatInts_isSome h82
      · exact bindIsSome (readUInt8_isSome (by omega)) fun teamNumber => rfl

/-- **C10.** For every input buffer (any length, any contents), `parsePacket`
either returns an `Event` or throws a `PacketParseError`: every multi-byte
read is preceded by a covering length check, so no out-of-range buffer read
(modelled as `none`) can occur for any input. -/
theorem parsePacket_total (msg : List Nat) : (parsePacket msg).isSome := by
  rw [parsePacket]
  refine isSomeIteH (fun _ => rfl) fun hlen => ?hl
  refine bindIsSome (readUInt8_isSome (by omega)) fun type => ?ht
  refine isSomeIteH (fun _ => parseLen1_isSome msg 0 .serverStarted) fun _ => ?t1
  refine isSomeIteH (fun _ => parseLen1_isSome msg 1 .serverQuit) fun _ => ?t2
  refine isSomeIteH (fun _ => parseServerStartPlaying_isSome msg) fun _ => ?t3
  refine isSomeIteH (fun _ => parseServerGameOver_isSome msg) fun _ => ?t4
  refine isSomeIteH (fun _ => rfl) fun _ => ?t5
  refine isSomeIteH (fun _ => rfl) fun _ => ?t6
  refine isSomeIteH (fun _ => parsePlayerJoined_isSome msg) fun _ => ?t7
  refine isSomeIteH (fun _ => parsePlayerLeft_isSome msg) fun _ => ?t8
  refine isSomeIteH (fun _ => parsePlayerReady_isSome msg) fun _ => ?t9
  refine isSomeIteH (fun _ => parsePlayerChat_isSome msg) fun _ => ?t10
  refine isSomeIteH (fun _ => parsePlayerDefeated_isSome msg) fun _ => ?t11
  refine isSomeIteH (fun _ => parseGameLuaMsg_isSome msg) fun _ => ?t12
  exact isSomeIteH (fun _ => parseGameTeamStat_isSome msg) fun _ => rfl

/-! ## Outbound serializers (engineAutohostInterface)

A JavaScript string is modelled as its list of UTF-16 code units.
`Buffer.from(s, 'utf8')` converts UTF-16 to UTF-8, replacing lone
surrogates with U+FFFD, which is `utf16ToUtf8` below. -/

/-- UTF-8 bytes of one Unicode code point. -/
def utf8EncodeCodepoint (c : Nat) : List Nat :=
  if c < 0x80 then [c]
  else if c < 0x800 then [0xC0 + c / 64, 0x80 + c % 64]
  else if c < 0x10000 then [0xE0 + c / 4096, 0x80 + c / 64 % 64, 0x80 + c % 64]
  else [0xF0 + c / 262144, 0x80 + c / 4096 % 64, 0x80 + c / 64 % 64, 0x80 + c % 64]

/-- Is `u` a UTF-16 high surrogate? -/
def isHighSurrogate (u : Nat) : Bool :=
  0xD800 ≤ u ∧ u ≤ 0xDBFF

/-- Is `u` a UTF-16 low surrogate? -/
def isLowSurrogate (u : Nat) : Bool :=
  0xDC00 ≤ u ∧ u ≤ 0xDFFF

/-- UTF-16 code units to UTF-8 bytes, as Node's `Buffer.from(s, 'utf8')`:
surrogate pairs combine, lone surrogates become U+FFFD. -/
def utf16ToUtf8 : List Nat → List Nat
  | [] => []
  | [u] =>
    if isHighSurrogate u ∨ isLowSurrogate u then utf8EncodeCodepoint 0xFFFD
    else utf8EncodeCodepoint u
  | u :: v :: rest =>
    if isHighSurrogate u then
      if isLowSurrogate v then
        utf8EncodeCodepoint (0x10000 + (u - 0xD800) * 0x400 + (v - 0xDC00)) ++
          utf16ToUtf8 rest
      else utf8EncodeCodepoint 0xFFFD ++ utf16ToUtf8 (v :: rest)
    else if isLowSurrogate u then utf8EncodeCodepoint 0xFFFD ++ utf16ToUtf8 (v :: rest)
    else utf8EncodeCodepoint u ++ utf16ToUtf8 (v :: rest)

/-- `PacketSerializeError`: which serializer check threw. -/
inductive PacketSerializeError
  | messageTooLong
  | invalidCommandName
  | invalidCommandArgument (i : Nat)
  | invalidLastCommandArgument
  deriving DecidableEq, Repr

/-- The UTF-16 unit of `'/'`. -/
def slashUnit : Nat := 47

/-- `serializeMessagePacket(message)`: reject messages whose **`.length`**
(UTF-16 code units) exceeds 127, double a leading `'/'`, and return the
UTF-8 bytes. -/
def serializeMessagePacket (message : List Nat) :
    Except PacketSerializeError (List Nat) :=
  if message.length > 127 then .error .messageTooLong
  else if message.length > 0 ∧ message.head? = some slashUnit then
    .ok (utf16ToUtf8 (slashUnit :: message))
  else .ok (utf16ToUtf8 message)

/-- `command.match(/^[a-z0-9_-]+$/)`: every unit is `a-z`, `0-9`, `_` or `-`,
and the string is nonempty. -/
def isValidCommandName (command : List Nat) : Bool :=
  command ≠ [] ∧ command.all fun u =>
    (0x61 ≤ u ∧ u ≤ 0x7A) ∨ (0x30 ≤ u ∧ u ≤ 0x39) ∨ u = 0x5F ∨ u = 0x2D

/-- Does the string contain two consecutive `'/'` units? -/
def containsDoubleSlash : List Nat → Bool
  | [] => false
  | [_] => false
  | u :: v :: rest =>
    (u = slashUnit ∧ v = slashUnit) ∨ containsDoubleSlash (v :: rest)

/-- `arg.match(/[ \t]|\/\/|^$/)`: space, tab, `//`, or empty. -/
def matchesBadArgument (arg : List Nat) : Bool :=
  arg.any (fun u => u = 32 ∨ u = 9) ∨ containsDoubleSlash arg ∨ arg = []

/-- `arg.match(/\/\/|^$/)`: `//` or empty. -/
def matchesBadLastArgument (arg : List Nat) : Bool :=
  containsDoubleSlash arg ∨ arg = []

/-- First index `i < args.length - 1` whose argument matches the bad-argument
regex (the source loop throws at the first hit). -/
def firstBadArgument (args : List (List Nat)) : Option Nat :=
  (List.range (args.length - 1)).find? fun i =>
    matchesBadArgument (args.getD i [])

/-- `['/' + command, ...args].join(' ')` as UTF-16 units. -/
def joinCommand (command : List Nat) (args : List (List Nat)) : List Nat :=
  (args.foldl (fun acc arg => acc ++ [32] ++ arg) (slashUnit :: command))

/-- `serializeCommandPacket(command, args)`: validate the command name and
each argument, then emit `'/'+command` and the arguments joined by spaces,
as UTF-8 bytes. -/
def serializeCommandPacket (command : List Nat) (args : List (List Nat)) :
    Except PacketSerializeError (List Nat) :=
  if ¬ isValidCommandName command then .error .invalidCommandName
  else match firstBadArgument args with
    | some i => .error (.invalidCommandArgument (i + 1))
    | none =>
      if args.length > 0 ∧ matchesBadLastArgument (args.getD (args.length - 1) []) then
        .error .invalidLastCommandArgument
      else .ok (utf16ToUtf8 (joinCommand command args))

/-! ## C3: `serializeMessagePacket` -/

/-- Helper for C3: `serializeMessagePacket` errors exactly on
`message.length > 127` (UTF-16 code units), and otherwise returns the UTF-8
bytes with a `'/'` prepended exactly when the first unit is `'/'`. -/
theorem serializeMessagePacket_spec (message : List Nat) :
    ((∃ e, serializeMessagePacket message = .error e) ↔ 127 < message.length) ∧
    (message.length ≤ 127 →
      serializeMessagePacket message =
        .ok (utf16ToUtf8
          (if message.head? = some slashUnit then slashUnit :: message
           else message))) := by
  constructor
  · constructor
    · rintro ⟨e, he⟩
      by_contra hlen
      rw [serializeMessagePacket, if_neg (by omega)] at he
      split at he <;> simp at he
    · intro hlen
      exact ⟨.messageTooLong, by rw [serializeMessagePacket, if_pos (by omega)]⟩
  · intro hlen
    rw [serializeMessagePacket, if_neg (by omega)]
    cases message with
    | nil => simp
    | cons u t =>
      by_cases hu : u = slashUnit
      · subst hu
        rw [if_pos (by simp), if_pos (by simp)]
      · rw [if_neg (by simp [hu]), if_neg (by simp [hu])]

set_option maxRecDepth 8192 in
/-- **C3 (counterexample).** 127 repetitions of `'é'` (U+00E9) have UTF-16
length 127 but UTF-8 length 254: `serializeMessagePacket` succeeds although
the message is longer than 127 *bytes*, refuting the claim that a serialize
error is raised iff the message exceeds 127 bytes. -/
theorem serializeMessagePacket_bytes_counterexample :
    (serializeMessagePacket (List.replicate 127 233)).isOk = true ∧
    127 < (utf16ToUtf8 (List.replicate 127 233)).length := by
  constructor
  · rfl
  · decide

/-- **C3 (amended).** For every message, `serializeMessagePacket` raises a
serialize error iff the message is longer than 127 UTF-16 code units (only
for ASCII messages does that coincide with 127 bytes); otherwise it returns
the UTF-8 bytes of the message, with an extra `'/'` prepended exactly when
the first character is `'/'`. -/
theorem serializeMessagePacket_amended (message : List Nat) :
    ((∃ e, serializeMessagePacket message = .error e) ↔ 127 < message.length) ∧
    (message.length ≤ 127 →
      serializeMessagePacket message =
        .ok (utf16ToUtf8
          (if message.head? = some slashUnit then slashUnit :: message
           else message))) :=
  serializeMessagePacket_spec message

/-- **C3 (witness).** `serializeMessagePacket "/h"` doubles the slash. -/
theorem serializeMessagePacket_amended_witness :
    serializeMessagePacket [47, 104] = .ok [47, 47, 104] :=
  ((serializeMessagePacket_amended [47, 104]).2 (by decide)).trans (by rfl)

/-! ## MultiIndex (specialised to the adapter's `PlayerIds` index) -/

/-- A JavaScript string (list of UTF-16 code units). -/
abbrev JsStr := List Nat

/-- The `PlayerIds` index key of the Autohost adapter. -/
structure PlayerIds where
  userId : JsStr
  name : JsStr
  playerNumber : Nat
  deriving DecidableEq, Repr

/-- `Map.get` over an association list. -/
def alistGet {κ ν : Type} [DecidableEq κ] (m : List (κ × ν)) (k : κ) : Option ν :=
  (m.find? fun e => e.1 = k).map fun e => e.2

/-- `Map.delete` over an association list (keys are unique by construction). -/
def alistDelete {κ ν : Type} [DecidableEq κ] (m : List (κ × ν)) (k : κ) : List (κ × ν) :=
  m.eraseP fun e => decide (e.1 = k)

/-- `MultiIndex<PlayerIds>`: one `Map` per field, each mapping the field value
to the whole key (the fields of `this.m`, in declaration order). -/
structure MultiIndex where
  mUserId : List (JsStr × PlayerIds)
  mName : List (JsStr × PlayerIds)
  mPlayerNumber : List (Nat × PlayerIds)
  deriving DecidableEq, Repr

/-- The `new MultiIndex({...})` empty index. -/
def MultiIndex.empty : MultiIndex :=
  { mUserId := [], mName := [], mPlayerNumber := [] }

/-- `get('userId', key)`. -/
def MultiIndex.getByUserId (m : MultiIndex) (k : JsStr) : Option PlayerIds :=
  alistGet m.mUserId k

/-- `get('name', key)`. -/
def MultiIndex.getByName (m : MultiIndex) (k : JsStr) : Option PlayerIds :=
  alistGet m.mName k

/-- `get('playerNumber', key)`. -/
def MultiIndex.getByPlayerNumber (m : MultiIndex) (k : Nat) : Option PlayerIds :=
  alistGet m.mPlayerNumber k

/-- `hasAny(idx)`: some field value already present. -/
def MultiIndex.hasAnyOf (m : MultiIndex) (idx : PlayerIds) : Bool :=
  (m.getByUserId idx.userId).isSome ∨ (m.getByName idx.name).isSome ∨
    (m.getByPlayerNumber idx.playerNumber).isSome

/-- `hasAll(idx)`: the first map's entry for `idx.userId` equals `idx` whole. -/
def MultiIndex.hasAllOf (m : MultiIndex) (idx : PlayerIds) : Bool :=
  match m.getByUserId idx.userId with
  | some v => v = idx
  | none => false

/-- `size`: the size of the first map. -/
def MultiIndex.size (m : MultiIndex) : Nat :=
  m.mUserId.length

/-- Error thrown by `MultiIndex.set` on a partial collision. -/
inductive MultiIndexError
  | incompatibleIndexKey
  deriving DecidableEq, Repr

/-- `set(idx)`: no-op if fully present, error on partial collision, else
insert into every map. -/
def MultiIndex.set (m : MultiIndex) (idx : PlayerIds) :
    Except MultiIndexError MultiIndex :=
  if m.hasAllOf idx then .ok m
  else if m.hasAnyOf idx then .error .incompatibleIndexKey
  else .ok
    { mUserId := (idx.userId, idx) :: m.mUserId,
      mName := (idx.name, idx) :: m.mName,
      mPlayerNumber := (idx.playerNumber, idx) :: m.mPlayerNumber }

/-- `delete('userId', key)`: look the record up, then remove all its field
keys from all maps. -/
def MultiIndex.deleteByUserId (m : MultiIndex) (k : JsStr) : MultiIndex :=
  match m.getByUserId k with
  | none => m
  | some r =>
    { mUserId := alistDelete m.mUserId r.userId,
      mName := alistDelete m.mName r.name,
      mPlayerNumber := alistDelete m.mPlayerNumber r.playerNumber }

/-! ## C9: `Autohost.addPlayer` -/

/-- `'adduser'` as UTF-16 units. -/
def adduserCmd : JsStr := [97, 100, 100, 117, 115, 101, 114]

/-- Errors surfacing from `addPlayer`. -/
inductive AddPlayerError
  | invalidRequest
  | serializeError (e : PacketSerializeError)
  | multiIndexError
  | sendError
  deriving DecidableEq, Repr

instance {e a : Type} [DecidableEq e] [DecidableEq a] : DecidableEq (Except e a) := fun x y =>
  match x, y with
  | .ok v, .ok w => if h : v = w then isTrue (by rw [h]) else isFalse (by simp [h])
  | .error v, .error w => if h : v = w then isTrue (by rw [h]) else isFalse (by simp [h])
  | .ok _, .error _ => isFalse (by simp)
  | .error _, .ok _ => isFalse (by simp)

/-- Result of one `addPlayer` call: the outcome, the battle's player index
afterwards, and the packets whose send resolved. -/
structure AddPlayerResult where
  result : Except AddPlayerError Unit
  players : MultiIndex
  sent : List (List Nat)
  deriving DecidableEq, Repr

/-- `Autohost.addPlayer` for an existing battle with player index `players`.
`sendOk` models whether `gamesMgr.sendPacket` resolves or rejects. -/
def addPlayer (players : MultiIndex) (userId name password : JsStr)
    (sendOk : Bool) : AddPlayerResult :=
  match players.getByUserId userId with
  | some playerId =>
    if playerId.name ≠ name then ⟨.error .invalidRequest, players, []⟩
    else
      match serializeCommandPacket adduserCmd [name, password] with
      | .error e => ⟨.error (.serializeError e), players, []⟩
      | .ok command =>
        if sendOk then ⟨.ok (), players, [command]⟩
        else ⟨.error .sendError, players, []⟩
  | none =>
    if players.getByName name |>.isSome then ⟨.error .invalidRequest, players, []⟩
    else
      match players.set ⟨userId, name, players.size⟩ with
      | .error _ => ⟨.error .multiIndexError, players, []⟩
      | .ok players2 =>
        match serializeCommandPacket adduserCmd [name, password, [49]] with
        | .error e => ⟨.error (.serializeError e), players2, []⟩
        | .ok command =>
          if sendOk then ⟨.ok (), players2, [command]⟩
          else ⟨.error .sendError, players2.deleteByUserId userId, []⟩

/-- **C9 (counterexample).** Adding a fresh user whose name contains a space:
the identity is inserted, then `serializeCommandPacket` throws *before* any
send is attempted, the error propagates, and the identity **stays** in the
index — although no packet send ever succeeded.  This refutes the claim that
the new identity remains in the index exactly when the packet send succeeds. -/
theorem addPlayer_serialize_no_rollback_counterexample :
    (addPlayer MultiIndex.empty [117] [97, 32, 98] [112] true).result =
      .error (.serializeError (.invalidCommandArgument 1)) ∧
    (addPlayer MultiIndex.empty [117] [97, 32, 98] [112] true).sent = [] ∧
    ((addPlayer MultiIndex.empty [117] [97, 32, 98] [112] true).players.getByUserId
      [117]).isSome = true := by
  refine ⟨by decide, by decide, by decide⟩

/-- **C9 (amended).** For every `addPlayer` request whose `userId` is not yet
in the battle's player index, whose name does not collide, and whose
`adduser` command serializes successfully: if the packet send fails the
error propagates and the player index is left unchanged (the insert is
rolled back); if the send succeeds the new identity, with `playerNumber`
equal to the index size before insertion, remains in the index.  (When
serialization itself fails, the inserted identity is *not* rolled back —
see the counterexample.) -/
theorem addPlayer_amended (players : MultiIndex) (userId name password : JsStr)
    (sendOk : Bool)
    (hfresh : players.getByUserId userId = none)
    (hname : players.getByName name = none)
    (hnum : players.getByPlayerNumber players.size = none)
    (hser : (serializeCommandPacket adduserCmd [name, password, [49]]).isOk = true) :
    (sendOk = true →
      (addPlayer players userId name password sendOk).result = .ok () ∧
      (addPlayer players userId name password sendOk).players.getByUserId userId =
        some ⟨userId, name, players.size⟩) ∧
    (sendOk = false →
      (addPlayer players userId name password sendOk).result = .error .sendError ∧
      (addPlayer players userId name password sendOk).players = players) := by
  obtain ⟨command, hcmd⟩ : ∃ c, serializeCommandPacket adduserCmd [name, password, [49]] = .ok c := by
    cases hc : serializeCommandPacket adduserCmd [name, password, [49]] with
    | ok c => exact ⟨c, rfl⟩
    | error e => rw [hc] at hser; simp [Except.isOk, Except.toBool] at hser
  have hsetOk : players.set ⟨userId, name, players.size⟩ = .ok
      { mUserId := (userId, ⟨userId, name, players.size⟩) :: players.mUserId,
        mName := (name, ⟨userId, name, players.size⟩) :: players.mName,
        mPlayerNumber := (players.size, ⟨userId, name, players.size⟩) ::
          players.mPlayerNumber } := by
    rw [MultiIndex.set]
    rw [if_neg (by simp [MultiIndex.hasAllOf, hfresh]),
      if_neg (by simp [MultiIndex.hasAnyOf, hfresh, hname, hnum])]
  cases sendOk with
  | true =>
    have hstep : addPlayer players userId name password true =
        ⟨.ok (),
          { mUserId := (userId, ⟨userId, name, players.size⟩) :: players.mUserId,
            mName := (name, ⟨userId, name, players.size⟩) :: players.mName,
            mPlayerNumber := (players.size, ⟨userId, name, players.size⟩) ::
              players.mPlayerNumber }, [command]⟩ := by
      simp [addPlayer, hfresh, hname, hsetOk, hcmd]
    refine ⟨fun _ => ⟨?hres, ?hget⟩, fun h => absurd h (by simp)⟩
    · rw [hstep]
    · rw [hstep]
      simp [MultiIndex.getByUserId, alistGet]
  | false =>
    have hstep : addPlayer players userId name password false =
        ⟨.error .sendError,
          MultiIndex.deleteByUserId
            { mUserId := (userId, ⟨userId, name, players.size⟩) :: players.mUserId,
              mName := (name, ⟨userId, name, players.size⟩) :: players.mName,
              mPlayerNumber := (players.size, ⟨userId, name, players.size⟩) ::
                players.mPlayerNumber } userId, []⟩ := by
      simp [addPlayer, hfresh, hname, hsetOk, hcmd]
    refine ⟨fun h => absurd h (by simp), fun _ => ⟨?hres2, ?hput⟩⟩
    · rw [hstep]
    · rw [hstep]
      simp [MultiIndex.deleteByUserId, MultiIndex.getByUserId, alistGet, alistDelete]

/-- **C9 (witness).** A concrete failed send on a fresh user is rolled back. -/
theorem addPlayer_amended_witness :
    (addPlayer MultiIndex.empty [117] [110] [112] false).result = .error .sendError ∧
    (addPlayer MultiIndex.empty [117] [110] [112] false).players = MultiIndex.empty :=
  (addPlayer_amended MultiIndex.empty [117] [110] [112] false rfl rfl rfl
    (by decide)).2 rfl

/-! ## Autohost adapter: engine event → tachyon update projection -/

/-- `PlayerLeftUpdate['reason']`. -/
inductive TachyonLeaveReason
  | kicked
  | left
  | lost_connection
  deriving DecidableEq, Repr

/-- `PlayerChatUpdate['destination']`. -/
inductive TachyonChatDestination
  | player
  | allies
  | all
  | spectators
  deriving DecidableEq, Repr

/-- `LuaMsgUpdate['script']`. -/
inductive TachyonLuaMsgScript
  | game
  | rules
  | ui
  deriving DecidableEq, Repr

/-- `LuaMsgUpdate['uiMode']`. -/
inductive TachyonLuaMsgUIMode
  | all
  | allies
  | spectators
  deriving DecidableEq, Repr

/-- `AutohostUpdateEventData['update']`: the lobby-facing update variants.
`luamsg` keeps raw bytes (the source base64-encodes them for transport). -/
inductive Update
  | luamsg (userId : JsStr) (script : TachyonLuaMsgScript)
      (uiMode : Option TachyonLuaMsgUIMode) (data : List Nat)
  | player_chat (userId : JsStr) (destination : TachyonChatDestination)
      (message : List Nat) (toUserId : Option JsStr)
  | player_defeated (userId : JsStr)
  | player_joined (userId : JsStr) (playerNumber : Nat)
  | player_left (userId : JsStr) (reason : TachyonLeaveReason)
  | finished (userId : JsStr) (winningAllyTeams : List Nat)
  | engine_message (message : List Nat)
  | start
  | engine_warning (message : List Nat)
  | engine_quit
  | engine_crash (details : JsStr)
  deriving DecidableEq, Repr

def toTachyonLeaveReason : LeaveReason → TachyonLeaveReason
  | .KICKED => .kicked
  | .LEFT => .left
  | .LOST_CONNECTION => .lost_connection

def toTachyonDestination : ChatDestination → TachyonChatDestination
  | .TO_PLAYER => .player
  | .TO_ALLIES => .allies
  | .TO_EVERYONE => .all
  | .TO_SPECTATORS => .spectators

def toTachyonLuaMsgScript : LuaMsgScript → TachyonLuaMsgScript
  | .GAIA => .game
  | .RULES => .rules
  | .UI => .ui

def toTachyonLuaMsgUIMode : Option LuaMsgUIMode → Option TachyonLuaMsgUIMode
  | none => none
  | some .ALL => some .all
  | some .ALLIES => some .allies
  | some .SPECTATORS => some .spectators

/-- Errors thrown inside `engineEventToTachyonUpdate` (caught and logged by
`handlePacket`). -/
inductive ConvError
  | failedToResolvePlayer
  | noWinningAllyTeams
  deriving DecidableEq, Repr

/-- `engineEventToTachyonUpdate(ev, toUserId)`: `.ok none` models the `null`
return, `.error` a thrown error (`toUserId` throwing is modelled by its
`Option` result). -/
def engineEventToTachyonUpdate (ev : Event) (toUserId : Nat → Option JsStr) :
    Except ConvError (Option Update) :=
  match ev with
  | .gameLuaMsg player script uiMode data =>
    match toUserId player with
    | none => .error .failedToResolvePlayer
    | some u =>
      .ok (some (.luamsg u (toTachyonLuaMsgScript script)
        (toTachyonLuaMsgUIMode uiMode) data))
  | .playerChat fromPlayer toPlayer destination message =>
    match toTachyonDestination destination with
    | .player =>
      (match toUserId fromPlayer with
       | none => .error .failedToResolvePlayer
       | some u =>
         match toPlayer with
         | none => .error .failedToResolvePlayer
         | some tp =>
           match toUserId tp with
           | none => .error .failedToResolvePlayer
           | some tu => .ok (some (.player_chat u .player message (some tu))))
    | d =>
      match toUserId fromPlayer with
      | none => .error .failedToResolvePlayer
      | some u => .ok (some (.player_chat u d message none))
  | .playerDefeated player =>
    match toUserId player with
    | none => .error .failedToResolvePlayer
    | some u => .ok (some (.player_defeated u))
  | .playerJoined player _name =>
    match toUserId player with
    | none => .error .failedToResolvePlayer
    | some u => .ok (some (.player_joined u player))
  | .playerLeft player reason =>
    match toUserId player with
    | none => .error .failedToResolvePlayer
    | some u => .ok (some (.player_left u (toTachyonLeaveReason reason)))
  | .serverGameOver player winningAllyTeams =>
    if winningAllyTeams.length < 1 then .error .noWinningAllyTeams
    else
      match toUserId player with
      | none => .error .failedToResolvePlayer
      | some u => .ok (some (.finished u winningAllyTeams))
  | .serverMessage message => .ok (some (.engine_message message))
  | .serverStartPlaying _ _ => .ok (some .start)
  | .serverWarning message => .ok (some (.engine_warning message))
  | .serverQuit => .ok (some .engine_quit)
  | .serverStarted => .ok none
  | .gameTeamStat _ _ => .ok none
  | .playerReady _ _ => .ok none

/-! ## C1: terminal update de-duplication in the Autohost adapter -/

/-- The adapter's per-battle state: whether the battle is in
`finishedBattles`, and its `battlePlayers` index when present. -/
structure AhBattleState where
  finished : Bool
  players : Option MultiIndex
  deriving DecidableEq, Repr

/-- The three event sources that can push updates for a battle: a
`GamesManager` `error`, a `GamesManager` `exit`, and a decoded engine packet
(forwarded to `handlePacket`). -/
inductive AhEvent
  | gmError (details : JsStr)
  | gmExit
  | gmPacket (ev : Event)
  deriving DecidableEq, Repr

/-- The `toUserId` closure of `handlePacket`:
`battlePlayers.get(battleId)?.get('playerNumber', n)?.userId`. -/
def resolvePlayerNumber (players : Option MultiIndex) (p : Nat) : Option JsStr :=
  match players with
  | none => none
  | some m => (m.getByPlayerNumber p).map fun ids => ids.userId

/-- Is this update `engine_quit` or `engine_crash`? -/
def Update.isTerminal : Update → Bool
  | .engine_quit => true
  | .engine_crash _ => true
  | _ => false

/-- One step of the adapter's per-battle update machinery: the constructor's
`error` and `exit` listeners and `handlePacket`. -/
def ahStep (s : AhBattleState) (e : AhEvent) : AhBattleState × List Update :=
  match e with
  | .gmError details =>
    if s.finished then (s, [])
    else ({ s with finished := true }, [.engine_crash details])
  | .gmExit =>
    let s2 : AhBattleState := { s with players := none }
    if s2.finished then ({ s2 with finished := false }, [])
    else (s2, [.engine_quit])
  | .gmPacket ev =>
    match engineEventToTachyonUpdate ev (resolvePlayerNumber s.players) with
    | .error _ => (s, [])
    | .ok none => (s, [])
    | .ok (some u) =>
      match u with
      | .engine_quit => ({ s with finished := true }, [.engine_quit])
      | _ => (s, [u])

/-- Run the adapter machinery over a stream of events, collecting every
update pushed to the events buffer. -/
def ahRun (s : AhBattleState) : List AhEvent → AhBattleState × List Update
  | [] => (s, [])
  | e :: rest =>
    let p := ahStep s e
    let q := ahRun p.1 rest
    (q.1, p.2 ++ q.2)

/-- An event that is neither a `SERVER_QUIT` packet, nor a `GamesManager`
`error`, nor a `GamesManager` `exit`. -/
def QuietEvent : AhEvent → Prop
  | .gmPacket ev => ev ≠ .serverQuit
  | _ => False

/-- The projection of any engine event other than `SERVER_QUIT` is never a
terminal update. -/
theorem conv_not_terminal (ev : Event) (f : Nat → Option JsStr) (u : Update)
    (hconv : engineEventToTachyonUpdate ev f = .ok (some u))
    (hne : ev ≠ .serverQuit) : u.isTerminal = false := by
  cases ev with
  | serverQuit => exact absurd rfl hne
  | serverStarted => simp [engineEventToTachyonUpdate] at hconv
  | gameTeamStat t st => simp [engineEventToTachyonUpdate] at hconv
  | playerReady p st => simp [engineEventToTachyonUpdate] at hconv
  | serverMessage m =>
    simp [engineEventToTachyonUpdate] at hconv
    subst hconv; rfl
  | serverWarning m =>
    simp [engineEventToTachyonUpdate] at hconv
    subst hconv; rfl
  | serverStartPlaying g d =>
    simp [engineEventToTachyonUpdate] at hconv
    subst hconv; rfl
  | gameLuaMsg p sc ui data =>
    rw [engineEventToTachyonUpdate] at hconv
    cases hf : f p <;> rw [hf] at hconv <;> simp at hconv
    subst hconv; rfl
  | playerDefeated p =>
    rw [engineEventToTachyonUpdate] at hconv
    cases hf : f p <;> rw [hf] at hconv <;> simp at hconv
    subst hconv; rfl
  | playerJoined p n =>
    rw [engineEventToTachyonUpdate] at hconv
    cases hf : f p <;> rw [hf] at hconv <;> simp at hconv
    subst hconv; rfl
  | playerLeft p reason =>
    rw [engineEventToTachyonUpdate] at hconv
    cases hf : f p <;> rw [hf] at hconv <;> simp at hconv
    subst hconv; rfl
  | serverGameOver p wat =>
    rw [engineEventToTachyonUpdate] at hconv
    split at hconv
    · simp at hconv
    · cases hf : f p <;> rw [hf] at hconv <;> simp at hconv
      subst hconv; rfl
  | playerChat fromP toP dest message =>
    rw [engineEventToTachyonUpdate] at hconv
    cases dest with
    | TO_PLAYER =>
      simp only [toTachyonDestination] at hconv
      cases toP with
      | none =>
        cases hf : f fromP <;> simp [hf] at hconv
      | some tp =>
        cases hf : f fromP with
        | none => simp [hf] at hconv
        | some uu =>
          cases ht : f tp with
          | none => simp [hf, ht] at hconv
          | some tu =>
            simp [hf, ht] at hconv
            subst hconv; rfl
    | TO_ALLIES =>
      simp only [toTachyonDestination] at hconv
      cases hf : f fromP <;> rw [hf] at hconv <;> simp at hconv
      subst hconv; rfl
    | TO_SPECTATORS =>
      simp only [toTachyonDestination] at hconv
      cases hf : f fromP <;> rw [hf] at hconv <;> simp at hconv
      subst hconv; rfl
    | TO_EVERYONE =>
      simp only [toTachyonDestination] at hconv
      cases hf : f fromP <;> rw [hf] at hconv <;> simp at hconv
      subst hconv; rfl

/-- A quiet event leaves the adapter state alone and pushes no terminal
update. -/
theorem ahStep_quiet (s : AhBattleState) (e : AhEvent) (hq : QuietEvent e) :
    (ahStep s e).1 = s ∧ ((ahStep s e).2.countP Update.isTerminal) = 0 := by
  cases e with
  | gmError d => exact hq.elim
  | gmExit => exact hq.elim
  | gmPacket ev =>
    have hne : ev ≠ Event.serverQuit := hq
    simp only [ahStep]
    cases hconv : engineEventToTachyonUpdate ev (resolvePlayerNumber s.players) with
    | error e2 => exact ⟨rfl, rfl⟩
    | ok o =>
      cases o with
      | none => exact ⟨rfl, rfl⟩
      | some u =>
        have hterm := conv_not_terminal ev _ u hconv hne
        cases u
        case engine_quit => simp [Update.isTerminal] at hterm
        case engine_crash => simp [Update.isTerminal] at hterm
        all_goals exact ⟨rfl, by simp [List.countP_cons, Update.isTerminal]⟩

theorem ahRun_append (s : AhBattleState) (l1 l2 : List AhEvent) :
    ahRun s (l1 ++ l2) =
      ((ahRun (ahRun s l1).1 l2).1,
        (ahRun s l1).2 ++ (ahRun (ahRun s l1).1 l2).2) := by
  induction l1 generalizing s with
  | nil => simp [ahRun]
  | cons e rest ih => simp [ahRun, ih]

/-- Terminal updates over an appended stream split additively. -/
theorem ahRun_count_append (s : AhBattleState) (l1 l2 : List AhEvent) :
    ((ahRun s (l1 ++ l2)).2.countP Update.isTerminal) =
      ((ahRun s l1).2.countP Update.isTerminal) +
        ((ahRun (ahRun s l1).1 l2).2.countP Update.isTerminal) := by
  rw [ahRun_append]; simp [List.countP_append]

theorem ahRun_state_append (s : AhBattleState) (l1 l2 : List AhEvent) :
    (ahRun s (l1 ++ l2)).1 = (ahRun (ahRun s l1).1 l2).1 := by
  rw [ahRun_append]

/-- A stream of quiet events leaves the state alone and pushes no terminal
update. -/
theorem ahRun_quiet (s : AhBattleState) (l : List AhEvent)
    (h : ∀ e ∈ l, QuietEvent e) :
    (ahRun s l).1 = s ∧ ((ahRun s l).2.countP Update.isTerminal) = 0 := by
  induction l generalizing s with
  | nil => exact ⟨rfl, rfl⟩
  | cons e rest ih =>
    have hstep := ahStep_quiet s e (h e (by simp))
    have hrest := ih (ahStep s e).1 fun x hx => h x (by simp [hx])
    rw [hstep.1] at hrest
    refine ⟨?hs, ?hc⟩
    · show (ahRun (ahStep s e).1 rest).1 = s
      rw [hstep.1, hrest.1]
    · show (((ahStep s e).2 ++ (ahRun (ahStep s e).1 rest).2).countP Update.isTerminal) = 0
      rw [hstep.1]
      simp [List.countP_append, hstep.2, hrest.2]

theorem ahRun_tailX (f : Bool) (pl : Option MultiIndex) (hasX : Bool)
    (p3 p4 : List AhEvent)
    (h3 : ∀ e ∈ p3, QuietEvent e) (h4 : ∀ e ∈ p4, QuietEvent e) :
    ((ahRun ⟨f, pl⟩ (p3 ++ ((if hasX then [.gmExit] else []) ++ p4))).2.countP
      Update.isTerminal) ≤ if f then 0 else 1 := by
  obtain ⟨hs3, hc3⟩ := ahRun_quiet ⟨f, pl⟩ p3 h3
  rw [ahRun_count_append, hc3, hs3]
  cases hasX with
  | false =>
    simp only [Bool.false_eq_true, if_false, List.nil_append]
    obtain ⟨hs4, hc4⟩ := ahRun_quiet ⟨f, pl⟩ p4 h4
    simp [hc4]
  | true =>
    simp only [eq_self_iff_true, if_true]
    rw [ahRun_count_append _ [.gmExit]]
    cases f with
    | true =>
      have hone : ahRun (⟨true, pl⟩ : AhBattleState) [.gmExit] =
          (⟨false, none⟩, []) := rfl
      rw [hone]
      obtain ⟨hs4, hc4⟩ := ahRun_quiet ⟨false, none⟩ p4 h4
      simp [hc4]
    | false =>
      have hone : ahRun (⟨false, pl⟩ : AhBattleState) [.gmExit] =
          (⟨false, none⟩, [.engine_quit]) := rfl
      rw [hone]
      obtain ⟨hs4, hc4⟩ := ahRun_quiet ⟨false, none⟩ p4 h4
      simp [hc4, List.countP_cons, Update.isTerminal]

theorem ahRun_tailE (f : Bool) (pl : Option MultiIndex) (details : JsStr)
    (hasE hasX : Bool) (p2 p3 p4 : List AhEvent)
    (h2 : ∀ e ∈ p2, QuietEvent e) (h3 : ∀ e ∈ p3, QuietEvent e)
    (h4 : ∀ e ∈ p4, QuietEvent e) :
    ((ahRun ⟨f, pl⟩
      (p2 ++ ((if hasE then [.gmError details] else []) ++
        (p3 ++ ((if hasX then [.gmExit] else []) ++ p4))))).2.countP
      Update.isTerminal) ≤ if f then 0 else 1 := by
  obtain ⟨hs2, hc2⟩ := ahRun_quiet ⟨f, pl⟩ p2 h2
  rw [ahRun_count_append, hc2, hs2]
  cases hasE with
  | false =>
    simp only [Bool.false_eq_true, if_false, List.nil_append]
    simpa using ahRun_tailX f pl hasX p3 p4 h3 h4
  | true =>
    simp only [eq_self_iff_true, if_true]
    rw [ahRun_count_append _ [.gmError details]]
    cases f with
    | true =>
      have hone : ahRun (⟨true, pl⟩ : AhBattleState) [.gmError details] =
          (⟨true, pl⟩, []) := rfl
      rw [hone]
      have := ahRun_tailX true pl hasX p3 p4 h3 h4
      simpa using this
    | false =>
      have hone : ahRun (⟨false, pl⟩ : AhBattleState) [.gmError details] =
          (⟨true, pl⟩, [.engine_crash details]) := rfl
      rw [hone]
      have := ahRun_tailX true pl hasX p3 p4 h3 h4
      simp only [eq_self_iff_true, if_true] at this
      simp [List.countP_cons, Update.isTerminal, Nat.le_zero.mp this]

/-- **C1 (counterexample).** Two decoded `SERVER_QUIT` packets for the same
battle each push an `engine_quit` update: `handlePacket` adds the battle to
`finishedBattles` but pushes without consulting it, so a stream with a
repeated `SERVER_QUIT` packet pushes two terminal updates, refuting the
claim for arbitrary order and multiplicity. -/
theorem terminal_dedup_counterexample :
    ((ahRun ⟨false, some MultiIndex.empty⟩
      [.gmPacket .serverQuit, .gmPacket .serverQuit]).2.countP
        Update.isTerminal) = 2 := by
  decide

/-- **C1 (amended).** At most one terminal update (`engine_quit` or
`engine_crash`) is pushed per battle, provided the battle's event stream
contains at most one decoded `SERVER_QUIT` packet, at most one GamesManager
`error`, and at most one GamesManager `exit`, in that relative order (which
is the discipline the runner and manager provide in normal operation).
Without these restrictions duplicates are possible. -/
theorem terminal_dedup_amended (players : Option MultiIndex) (details : JsStr)
    (p1 p2 p3 p4 : List AhEvent) (hasQ hasE hasX : Bool)
    (h1 : ∀ e ∈ p1, QuietEvent e) (h2 : ∀ e ∈ p2, QuietEvent e)
    (h3 : ∀ e ∈ p3, QuietEvent e) (h4 : ∀ e ∈ p4, QuietEvent e) :
    ((ahRun ⟨false, players⟩
      (p1 ++ ((if hasQ then [.gmPacket .serverQuit] else []) ++
        (p2 ++ ((if hasE then [.gmError details] else []) ++
          (p3 ++ ((if hasX then [.gmExit] else []) ++ p4))))))).2.countP
      Update.isTerminal) ≤ 1 := by
  obtain ⟨hs1, hc1⟩ := ahRun_quiet ⟨false, players⟩ p1 h1
  rw [ahRun_count_append, hc1, hs1]
  cases hasQ with
  | false =>
    simp only [Bool.false_eq_true, if_false, List.nil_append]
    have := ahRun_tailE false players details hasE hasX p2 p3 p4 h2 h3 h4
    simpa using this
  | true =>
    simp only [eq_self_iff_true, if_true]
    rw [ahRun_count_append _ [.gmPacket .serverQuit]]
    have hone : ahRun (⟨false, players⟩ : AhBattleState) [.gmPacket .serverQuit] =
        (⟨true, players⟩, [.engine_quit]) := rfl
    rw [hone]
    have := ahRun_tailE true players details hasE hasX p2 p3 p4 h2 h3 h4
    simp only [eq_self_iff_true, if_true] at this
    simp [List.countP_cons, Update.isTerminal, Nat.le_zero.mp this]

/-- **C1 (witness).** A full quit-error-exit sequence pushes exactly one
terminal update (at most one, per the amended claim). -/
theorem terminal_dedup_amended_witness :
    ((ahRun ⟨false, some MultiIndex.empty⟩
      [.gmPacket .serverQuit, .gmError [], .gmExit]).2.countP
        Update.isTerminal) ≤ 1 := by
  have := terminal_dedup_amended (some MultiIndex.empty) [] [] [] [] []
    true true true (by simp) (by simp) (by simp) (by simp)
  simpa using this

/-! ## GamesManager (games.ts): battle pool, capacity, used battle ids -/

/-- A `Game` entry of the manager's pool (`battleId`, `portOffset`,
`started`; the runner itself is external). -/
structure GmGame where
  battleId : JsStr
  portOffset : Nat
  started : Bool
  deriving DecidableEq, Repr

/-- The mutable state of `GamesManager` together with the config values it
reads (`maxBattles`, `maxPortsUsed`). -/
structure GmState where
  games : List GmGame
  usedBattleIds : List JsStr
  usedPortOffset : List Nat
  lastPortOffset : Nat
  currentBattles : Nat
  maxBattles : Nat
  maxPortsUsed : Nat
  deriving DecidableEq, Repr

/-- A fresh `GamesManager` for the given config. -/
def gmInit (maxBattles maxPortsUsed : Nat) : GmState :=
  { games := [], usedBattleIds := [], usedPortOffset := [], lastPortOffset := 0,
    currentBattles := 0, maxBattles, maxPortsUsed }

/-- The errors `GamesManager.start` can throw: `battle_already_exists`,
`invalid_request` ("too many battles running") and `internal_error`
("no free port offsets"). -/
inductive GmError
  | battleAlreadyExists
  | tooManyBattles
  | noFreePortOffsets
  deriving DecidableEq, Repr

/-- `findFreePortOffset`'s scan: up to `fuel` steps of
`last = (last+1) % maxPorts`, returning the final cursor and the first free
offset when found. -/
def findFreePortOffsetAux (maxPorts : Nat) (used : List Nat) :
    Nat → Nat → Nat × Option Nat
  | last, 0 => (last, none)
  | last, fuel + 1 =>
    let l := (last + 1) % maxPorts
    if used.contains l then findFreePortOffsetAux maxPorts used l fuel
    else (l, some l)

/-- The events the manager reacts to: a `start` request (its synchronous
part, up to the `await` of the runner's `start`), the runner's `start`
event, and the runner's `exit` event. -/
inductive GmEvent
  | startReq (battleId : JsStr)
  | runnerStarted (battleId : JsStr)
  | runnerExit (battleId : JsStr)
  deriving DecidableEq, Repr

/-- The synchronous part of `GamesManager.start`: duplicate check, capacity
check, registration of the battle id, port allocation, pool insertion. -/
def gmStartRequest (s : GmState) (battleId : JsStr) : GmState × Option GmError :=
  if s.usedBattleIds.contains battleId then (s, some .battleAlreadyExists)
  else if s.games.length ≥ s.maxBattles then (s, some .tooManyBattles)
  else
    let s1 := { s with usedBattleIds := battleId :: s.usedBattleIds }
    match findFreePortOffsetAux s.maxPortsUsed s.usedPortOffset s.lastPortOffset
      s.maxPortsUsed with
    | (last, none) => ({ s1 with lastPortOffset := last }, some .noFreePortOffsets)
    | (last, some off) =>
      ({ s1 with
          lastPortOffset := last,
          usedPortOffset := off :: s1.usedPortOffset,
          games := ⟨battleId, off, false⟩ :: s1.games }, none)

/-- The continuation of `start` after `await events.once(er, 'start')`:
`game.started = true` and `currentBattles += 1`. -/
def gmRunnerStarted (s : GmState) (battleId : JsStr) : GmState :=
  { s with
    games := s.games.map
      (fun g => if g.battleId = battleId then { g with started := true } else g),
    currentBattles := s.currentBattles + 1 }

/-- The runner's `exit` listener: drop the game and its port offset; only
observed starts decrement `currentBattles`. -/
def gmRunnerExit (s : GmState) (battleId : JsStr) : GmState :=
  match s.games.find? (fun g => decide (g.battleId = battleId)) with
  | none => s
  | some g =>
    { s with
      games := s.games.eraseP (fun g2 => decide (g2.battleId = battleId)),
      usedPortOffset := s.usedPortOffset.eraseP (fun p => decide (p = g.portOffset)),
      currentBattles := if g.started then s.currentBattles - 1 else s.currentBattles }

/-- One manager step. -/
def gmStep (s : GmState) (e : GmEvent) : GmState × Option GmError :=
  match e with
  | .startReq id => gmStartRequest s id
  | .runnerStarted id => (gmRunnerStarted s id, none)
  | .runnerExit id => (gmRunnerExit s id, none)

/-- Run the manager over a sequence of events (errors are returned to the
respective callers and do not affect the others). -/
def gmRun (s : GmState) (evs : List GmEvent) : GmState :=
  evs.foldl (fun s2 e => (gmStep s2 e).1) s

/-! ## C8: used battle ids never shrink -/

/-- Any single step only grows `usedBattleIds`. -/
theorem gmStep_usedBattleIds_mono (s : GmState) (e : GmEvent) :
    s.usedBattleIds ⊆ (gmStep s e).1.usedBattleIds := by
  cases e with
  | startReq id =>
    simp only [gmStep, gmStartRequest]
    split
    · exact fun a ha => ha
    · split
      · exact fun a ha => ha
      · split
        · exact fun a ha => List.mem_cons_of_mem _ ha
        · exact fun a ha => List.mem_cons_of_mem _ ha
  | runnerStarted id => exact fun a ha => ha
  | runnerExit id =>
    simp only [gmStep, gmRunnerExit]
    split
    · exact fun a ha => ha
    · exact fun a ha => ha

/-- A used battle id stays used across any event sequence. -/
theorem gmRun_usedBattleIds_mono (s : GmState) (evs : List GmEvent) :
    s.usedBattleIds ⊆ (gmRun s evs).usedBattleIds := by
  induction evs generalizing s with
  | nil => exact fun a ha => ha
  | cons e rest ih =>
    exact fun a ha => ih (gmStep s e).1 (gmStep_usedBattleIds_mono s e ha)

/-- **C8.** Once a `battleId` passes the duplicate and capacity checks of
`GamesManager.start`, it is recorded in `usedBattleIds`; that set never
shrinks (even though `exit` removes the battle from the pool), and any later
start request with the same id fails with `battle_already_exists`, both
while the battle runs and after it exits. -/
theorem battle_id_never_reused (s : GmState) (id : JsStr) (evs : List GmEvent)
    (haccepted : (gmStep s (.startReq id)).2 ≠ some .battleAlreadyExists ∧
      (gmStep s (.startReq id)).2 ≠ some .tooManyBattles) :
    id ∈ (gmStep s (.startReq id)).1.usedBattleIds ∧
    (∀ s2 : GmState, id ∈ s2.usedBattleIds →
      gmStep s2 (.startReq id) = (s2, some .battleAlreadyExists)) ∧
    gmStep (gmRun (gmStep s (.startReq id)).1 evs) (.startReq id) =
      ((gmRun (gmStep s (.startReq id)).1 evs), some .battleAlreadyExists) := by
  have hreject : ∀ s2 : GmState, id ∈ s2.usedBattleIds →
      gmStep s2 (.startReq id) = (s2, some .battleAlreadyExists) := by
    intro s2 hmem
    have hu : gmStep s2 (.startReq id) = gmStartRequest s2 id := rfl
    rw [hu, gmStartRequest, if_pos (by simpa using hmem)]
  have hmem : id ∈ (gmStep s (.startReq id)).1.usedBattleIds := by
    obtain ⟨hne1, hne2⟩ := haccepted
    by_cases hdup : id ∈ s.usedBattleIds
    · exact absurd (by simp [gmStep, gmStartRequest, hdup]) hne1
    · by_cases hcap : s.games.length ≥ s.maxBattles
      · exact absurd (by simp [gmStep, gmStartRequest, hdup, hcap]) hne2
      · have hu : gmStep s (.startReq id) = gmStartRequest s id := rfl
        rw [hu, gmStartRequest]
        rw [if_neg (by simpa using hdup), if_neg hcap]
        split
        · exact List.mem_cons_self _ _
        · exact List.mem_cons_self _ _
  exact ⟨hmem, hreject, hreject _ (gmRun_usedBattleIds_mono _ evs hmem)⟩

/-- **C8 (witness).** Start battle `"a"`, let it start and exit; a second
start of `"a"` is rejected with `battle_already_exists`. -/
theorem battle_id_never_reused_witness :
    gmStep (gmRun (gmStep (gmInit 10 1000) (.startReq [97])).1
        [.runnerStarted [97], .runnerExit [97]]) (.startReq [97]) =
      ((gmRun (gmStep (gmInit 10 1000) (.startReq [97])).1
        [.runnerStarted [97], .runnerExit [97]]), some .battleAlreadyExists) :=
  (battle_id_never_reused (gmInit 10 1000) [97]
    [.runnerStarted [97], .runnerExit [97]] (by decide)).2.2

/-! ## C4: the capacity check counts starting battles too -/

/-- **C4 (counterexample).** With `maxBattles = 1`, one battle that is still
*starting* (it has not emitted `start`, so `currentBattles = 0`) already
causes the next start request to be rejected: the check is
`games.size >= maxBattles`, and `games` includes starting battles. -/
theorem capacity_counts_starting_counterexample :
    ((gmStep (gmInit 1 1000) (.startReq [97])).1.currentBattles = 0 ∧
      (gmStep (gmInit 1 1000) (.startReq [97])).1.maxBattles = 1) ∧
    (gmStep (gmStep (gmInit 1 1000) (.startReq [97])).1 (.startReq [98])).2 =
      some .tooManyBattles := by
  decide

/-- **C4 (amended).** `GamesManager.start` rejects a request with an error
whenever the number of battles in the pool — started **or still starting**,
not yet exited — is at least `maxBattles`; since `currentBattles` (the count
of battles that emitted `start` and not yet `exit`) never exceeds the pool
size, a request is in particular rejected whenever
`currentBattles ≥ maxBattles`. -/
theorem capacity_check_amended (s : GmState) (id : JsStr)
    (hinv : s.currentBattles = (s.games.filter fun g => g.started).length) :
    (s.games.length ≥ s.maxBattles → (gmStep s (.startReq id)).2.isSome) ∧
    (s.currentBattles ≥ s.maxBattles → (gmStep s (.startReq id)).2.isSome) := by
  have hpool : (s.games.filter fun g => g.started).length ≤ s.games.length :=
    List.length_filter_le _ _
  have hfirst : s.games.length ≥ s.maxBattles →
      (gmStep s (.startReq id)).2.isSome := by
    intro hcap
    simp only [gmStep, gmStartRequest]
    split
    · rfl
    · rfl
  exact ⟨hfirst, fun hcur => hfirst (by omega)⟩

/-- **C4 (witness).** A manager at capacity zero rejects any start. -/
theorem capacity_check_amended_witness :
    ((gmStep (gmInit 0 1000) (.startReq [97])).2.isSome : Bool) = true :=
  (capacity_check_amended (gmInit 0 1000) [97] rfl).1 (by decide)

/-! ## C2: the absolute match timeout (spec-modelled) -/

/-- Modelled from the spec: the Games Manager's **absolute match timeout**
(`maxGameDurationSeconds`) — "after `maxGameDurationSeconds` from a
successful start, `Close` the runner. This timer is cancelled on natural
exit." The timer logic is missing from `src/src/games.ts` (only the config
option and the `timeout kill` test appear under `src/`), so it is modelled
here from the spec's words: `start` arms a deadline, natural `exit` disarms
it, and a timer tick at or past the armed deadline invokes `Close` once. -/
structure GameTimerState where
  deadline : Option Nat
  closeCalls : Nat
  deriving DecidableEq, Repr

/-- Events seen by the spec-modelled timer, with their wall-clock times. -/
inductive GameTimerEvent
  | start (t : Nat)
  | exit (t : Nat)
  | tick (t : Nat)
  deriving DecidableEq, Repr

/-- One step of the spec-modelled timer for duration `duration`. -/
def gameTimerStep (duration : Nat) (s : GameTimerState) :
    GameTimerEvent → GameTimerState
  | .start t => { s with deadline := some (t + duration) }
  | .exit _ => { s with deadline := none }
  | .tick t =>
    match s.deadline with
    | some d =>
      if d ≤ t then { deadline := none, closeCalls := s.closeCalls + 1 }
      else s
    | none => s

/-- The timer over an event sequence, from the unarmed state. -/
def gameTimerRun (duration : Nat) (evs : List GameTimerEvent) : GameTimerState :=
  evs.foldl (gameTimerStep duration) { deadline := none, closeCalls := 0 }

theorem gameTimer_ticks_below (duration d c : Nat) (ts : List Nat)
    (h : ∀ t ∈ ts, t < d) :
    (ts.map GameTimerEvent.tick).foldl (gameTimerStep duration)
      { deadline := some d, closeCalls := c } =
    { deadline := some d, closeCalls := c } := by
  induction ts with
  | nil => rfl
  | cons t rest ih =>
    have hstep : gameTimerStep duration { deadline := some d, closeCalls := c }
        (.tick t) = { deadline := some d, closeCalls := c } := by
      simp only [gameTimerStep]
      rw [if_neg (by have := h t (by simp); omega)]
    simp only [List.map_cons, List.foldl_cons, hstep]
    exact ih fun x hx => h x (by simp [hx])

theorem gameTimer_ticks_unarmed (duration c : Nat) (ts : List Nat) :
    (ts.map GameTimerEvent.tick).foldl (gameTimerStep duration)
      { deadline := none, closeCalls := c } =
    { deadline := none, closeCalls := c } := by
  induction ts with
  | nil => rfl
  | cons t rest ih => simpa [gameTimerStep] using ih

/-- **C2.** (Spec-modelled.)  For every battle with a successful start at
`t0`: no `Close` is invoked while the clock stays below
`t0 + maxGameDurationSeconds`; the first tick at the deadline invokes
`Close` exactly once; and a natural exit before the deadline cancels the
timer, so that no later tick — at arbitrary times `us`, including at or
past the deadline — ever invokes `Close`. -/
theorem maxGameDuration_timeout (duration t0 t1 : Nat) (ts us : List Nat)
    (hbelow : ∀ t ∈ ts, t < t0 + duration) :
    (gameTimerRun duration (.start t0 :: ts.map .tick)).closeCalls = 0 ∧
    (gameTimerRun duration
      (.start t0 :: (ts.map .tick ++ [.tick (t0 + duration)]))).closeCalls = 1 ∧
    (gameTimerRun duration
      (.start t0 :: (ts.map .tick ++ .exit t1 :: us.map .tick))).closeCalls = 0 := by
  refine ⟨?h1, ?h2, ?h3⟩
  · show ((ts.map GameTimerEvent.tick).foldl (gameTimerStep duration)
      { deadline := some (t0 + duration), closeCalls := 0 }).closeCalls = 0
    rw [gameTimer_ticks_below duration (t0 + duration) 0 ts hbelow]
  · show (((ts.map GameTimerEvent.tick) ++ [GameTimerEvent.tick (t0 + duration)]).foldl
      (gameTimerStep duration)
      { deadline := some (t0 + duration), closeCalls := 0 }).closeCalls = 1
    rw [List.foldl_append, gameTimer_ticks_below duration (t0 + duration) 0 ts hbelow]
    simp [gameTimerStep]
  · show (((ts.map GameTimerEvent.tick) ++
        GameTimerEvent.exit t1 :: us.map GameTimerEvent.tick).foldl
      (gameTimerStep duration)
      { deadline := some (t0 + duration), closeCalls := 0 }).closeCalls = 0
    rw [List.foldl_append, gameTimer_ticks_below duration (t0 + duration) 0 ts hbelow,
      List.foldl_cons]
    show ((us.map GameTimerEvent.tick).foldl (gameTimerStep duration)
      { deadline := none, closeCalls := 0 }).closeCalls = 0
    rw [gameTimer_ticks_unarmed]

/-- **C2 (witness).** With an 8 h duration, a tick before the deadline does
not close, the deadline tick closes once, and after a natural exit even a
tick past the deadline does not close. -/
theorem maxGameDuration_timeout_witness :
    (gameTimerRun 28800
      [GameTimerEvent.start 100, GameTimerEvent.tick 15000]).closeCalls = 0 ∧
    (gameTimerRun 28800
      [GameTimerEvent.start 100, GameTimerEvent.tick 15000,
        GameTimerEvent.tick 28900]).closeCalls = 1 ∧
    (gameTimerRun 28800
      [GameTimerEvent.start 100, GameTimerEvent.tick 15000,
        GameTimerEvent.exit 20000, GameTimerEvent.tick 28900]).closeCalls = 0 := by
  have h := maxGameDuration_timeout 28800 100 20000 [15000] [28900] (by decide)
  exact ⟨h.1, h.2.1, h.2.2⟩

/-! ## EventsBuffer (eventsBuffer.ts)

Times are `Int` microseconds (`Date.now() * 1000`).  The asynchronous pusher
is modelled as running to completion synchronously: `startPusher` returns
the delivered events and leaves `pusherRunning = false`, `pusherEventsIdx =
-1`, which is the quiescent state the real loop reaches when no interleaved
push occurs. -/

/-- `binarySearch(from, to, predicate)`'s loop, on `(lo, len)` with
`len = to - from`. -/
def binarySearchGo (lo len : Nat) (pred : Nat → Bool) : Nat :=
  if h : len = 0 then lo
  else if pred (lo + len / 2) then binarySearchGo lo (len / 2) pred
  else binarySearchGo (lo + len / 2 + 1) (len - (len / 2 + 1)) pred
termination_by len
decreasing_by
  · exact Nat.div_lt_self (Nat.pos_of_ne_zero h) (by omega)
  · omega

/-- `binarySearch(from, to, predicate)`: first value in `[from, to)` where
the monotone predicate turns true, or `to`. -/
def binarySearch (lo hi : Nat) (pred : Nat → Bool) : Nat :=
  binarySearchGo lo (hi - lo) pred

/-- Correctness of the search: everything below the result is false,
everything from the result (within range) is true. -/
theorem binarySearchGo_spec (pred : Nat → Bool) :
    ∀ (len lo : Nat),
    (∀ i j, lo ≤ i → i ≤ j → j < lo + len → pred i = true → pred j = true) →
    lo ≤ binarySearchGo lo len pred ∧ binarySearchGo lo len pred ≤ lo + len ∧
    (∀ k, lo ≤ k → k < binarySearchGo lo len pred → pred k = false) ∧
    (∀ k, binarySearchGo lo len pred ≤ k → k < lo + len → pred k = true) := by
  intro len
  induction len using Nat.strong_induction_on with
  | _ len ih =>
    intro lo hmono
    rw [binarySearchGo]
    by_cases h0 : len = 0
    · rw [dif_pos h0]
      subst h0
      exact ⟨le_refl lo, by omega, fun k hk1 hk2 => absurd hk1 (by omega),
        fun k hk1 hk2 => absurd hk1 (by omega)⟩
    · rw [dif_neg h0]
      have hoff : len / 2 < len := Nat.div_lt_self (Nat.pos_of_ne_zero h0) (by omega)
      cases hp : pred (lo + len / 2) with
      | true =>
        simp only [eq_self_iff_true, if_true]
        have hrec := ih (len / 2) hoff lo
          (fun i j hi hij hj hpi => hmono i j hi hij (by omega) hpi)
        obtain ⟨h1, h2, h3, h4⟩ := hrec
        refine ⟨h1, by omega, h3, ?hup⟩
        intro k hk1 hk2
        by_cases hklt : k < lo + len / 2
        · exact h4 k hk1 hklt
        · exact hmono (lo + len / 2) k (by omega) (by omega) hk2 hp
      | false =>
        simp only [Bool.false_eq_true, if_false]
        have hrec := ih (len - (len / 2 + 1)) (by omega) (lo + len / 2 + 1)
          (fun i j hi hij hj hpi => hmono i j (by omega) hij (by omega) hpi)
        obtain ⟨h1, h2, h3, h4⟩ := hrec
        refine ⟨by omega, by omega, ?hdown, fun k hk1 hk2 => h4 k hk1 (by omega)⟩
        intro k hk1 hk2
        by_cases hkle : k ≤ lo + len / 2
        · cases hq : pred k with
          | true =>
            exact absurd (hmono k (lo + len / 2) hk1 hkle (by omega) hq)
              (by simp [hp])
          | false => rfl
        · exact h3 k (by omega) hk2

/-- `EventsBufferError.type`. -/
inductive EventsBufferError
  | callback_already_set
  | too_far_in_the_past
  deriving DecidableEq, Repr

/-- The state of an `EventsBuffer`: config, subscription flag, pusher
bookkeeping and the deque of `(time, event)` pairs, **newest first** (the
source pushes at the deque front). -/
structure EventsBuffer (T : Type) where
  maxAge : Int
  droppingFrequency : Int
  callbackSet : Bool
  pusherRunning : Bool
  pusherEventsIdx : Int
  lastDropTime : Int
  events : List (Int × T)

/-- `new EventsBuffer(maxAge)` with the default
`droppingFrequency = (maxAge / 10) | 0`. -/
def EventsBuffer.new (T : Type) (maxAge : Int) : EventsBuffer T :=
  { maxAge, droppingFrequency := maxAge / 10, callbackSet := false,
    pusherRunning := false, pusherEventsIdx := 0, lastDropTime := 0, events := [] }

/-- The predicate handed to `binarySearch` over the deque:
`(n) => this.events.getElementByPos(n).time <= cutoff` (only evaluated in
range). -/
def timeLePred {T : Type} (events : List (Int × T)) (cutoff : Int) (n : Nat) : Bool :=
  match events.get? n with
  | some p => decide (p.1 ≤ cutoff)
  | none => true

/-- `startPusher(fromIdx)`, with the asynchronous drain completed: if a
callback is installed and no pusher is active, events at positions
`fromIdx, fromIdx-1, …, 0` are delivered in that order. -/
def EventsBuffer.startPusher {T : Type} (b : EventsBuffer T) (fromIdx : Int) :
    EventsBuffer T × List (Int × T) :=
  if b.pusherRunning || !b.callbackSet then (b, [])
  else
    ({ b with pusherRunning := false, pusherEventsIdx := -1 },
      (b.events.take (fromIdx.toNat + 1)).reverse)

/-- The cut position of `maybeDropOlderThen`: the last position whose time
is above `after`, raised to `pusherEventsIdx` while the pusher is running
("don't drop events not processed by pusher yet"). -/
def EventsBuffer.dropCutPos {T : Type} (b : EventsBuffer T) (after : Int) : Int :=
  let pos : Int := (binarySearch 0 b.events.length (timeLePred b.events after) : Int) - 1
  if b.pusherRunning then max pos b.pusherEventsIdx else pos

/-- `maybeDropOlderThen(after)`: rate-limited eviction of events with
`time <= after` (`cut(pos)` keeps positions `0..pos`). -/
def EventsBuffer.maybeDropOlderThen {T : Type} (b : EventsBuffer T) (after : Int) :
    EventsBuffer T :=
  if after > b.lastDropTime + b.droppingFrequency then
    { b with events := b.events.take (b.dropCutPos after + 1).toNat,
             lastDropTime := after }
  else b

/-- `push(event)` at wall-clock `nowMs` milliseconds: returns the new state,
the assigned timestamp, and the events delivered to the callback. -/
def EventsBuffer.push {T : Type} (b : EventsBuffer T) (nowMs : Int) (event : T) :
    EventsBuffer T × Int × List (Int × T) :=
  let now := nowMs * 1000
  let time := match b.events with
    | [] => now
    | (t, _) :: _ => if t ≥ now then t + 1 else now
  let b1 := { b with events := (time, event) :: b.events,
                     pusherEventsIdx := b.pusherEventsIdx + 1 }
  let p := b1.startPusher 0
  (p.1.maybeDropOlderThen (time - b.maxAge), time, p.2)

/-- `subscribe(since, callback)` at wall-clock `nowMs`: on success returns
the state with the callback installed and the replayed events (every stored
event with `time > since`, oldest first). -/
def EventsBuffer.subscribe {T : Type} (b : EventsBuffer T) (since nowMs : Int) :
    Except EventsBufferError (EventsBuffer T × List (Int × T)) :=
  if b.callbackSet then .error .callback_already_set
  else if since < nowMs * 1000 - b.maxAge then .error .too_far_in_the_past
  else
    let b1 := { b with callbackSet := true }
    let subStartIdx : Int :=
      (binarySearch 0 b1.events.length (timeLePred b1.events since) : Int) - 1
    if subStartIdx ≥ 0 then .ok (b1.startPusher subStartIdx)
    else .ok (b1, [])

/-- The deque invariant: times strictly decrease from front (newest) to
back (oldest). -/
def timesDecreasing {T : Type} (es : List (Int × T)) : Prop :=
  List.Pairwise (fun p q => q.1 < p.1) es

/-- On a sorted deque the `time <= cutoff` predicate is monotone in the
position (stated in the shape `binarySearchGo_spec` expects, with `lo = 0`). -/
theorem timeLePred_mono {T : Type} (es : List (Int × T)) (cutoff : Int)
    (hs : timesDecreasing es) :
    ∀ i j, 0 ≤ i → i ≤ j → j < 0 + es.length →
      timeLePred es cutoff i = true → timeLePred es cutoff j = true := by
  intro i j _ hij hj hi
  have hjlen : j < es.length := by omega
  have hilen : i < es.length := by omega
  rw [timeLePred, List.get?_eq_get hjlen]
  rw [timeLePred, List.get?_eq_get hilen] at hi
  simp only [decide_eq_true_eq] at hi ⊢
  rcases Nat.lt_or_ge i j with hlt | hge
  · have := List.pairwise_iff_get.mp hs ⟨i, hilen⟩ ⟨j, hjlen⟩ hlt
    omega
  · have : i = j := by omega
    subst this
    exact hi

/-- If every position below `r` holds a time above `since` and every
position from `r` a time at most `since`, the filter of times above `since`
is exactly the first `r` elements. -/
theorem filter_eq_take {T : Type} (since : Int) :
    ∀ (es : List (Int × T)) (r : Nat), r ≤ es.length →
    (∀ k, k < r → ∀ p : Int × T, es.get? k = some p → since < p.1) →
    (∀ k, r ≤ k → ∀ p : Int × T, es.get? k = some p → p.1 ≤ since) →
    es.filter (fun p => decide (since < p.1)) = es.take r := by
  intro es
  induction es with
  | nil => intro r _ _ _; simp
  | cons x tl ih =>
    intro r hr hfalse htrue
    cases r with
    | zero =>
      simp only [List.take_zero]
      rw [List.filter_eq_nil_iff]
      intro p hp
      simp only [decide_eq_true_eq]
      obtain ⟨n, hget⟩ := List.mem_iff_get.mp hp
      have := htrue n (by omega) p (by rw [List.get?_eq_get n.isLt, hget])
      omega
    | succ r2 =>
      have hx : since < x.1 := hfalse 0 (by omega) x rfl
      rw [List.take_succ_cons, List.filter_cons_of_pos (by simpa using hx)]
      rw [ih r2 (by simpa using hr)
        (fun k hk p hp => hfalse (k + 1) (by omega) p (by simpa using hp))
        (fun k hk p hp => htrue (k + 1) (by omega) p (by simpa using hp))]

/-- `startPusher` never touches the deque or the configuration. -/
theorem startPusher_state {T : Type} (b : EventsBuffer T) (i : Int) :
    (b.startPusher i).1.events = b.events ∧
    (b.startPusher i).1.maxAge = b.maxAge ∧
    (b.startPusher i).1.callbackSet = b.callbackSet ∧
    (b.startPusher i).1.droppingFrequency = b.droppingFrequency ∧
    (b.startPusher i).1.lastDropTime = b.lastDropTime := by
  rw [EventsBuffer.startPusher]
  split
  · exact ⟨rfl, rfl, rfl, rfl, rfl⟩
  · exact ⟨rfl, rfl, rfl, rfl, rfl⟩

/-- `startPusher` leaves a quiescent pusher quiescent (the modelled drain
runs to completion). -/
theorem startPusher_running_false {T : Type} (b : EventsBuffer T) (i : Int)
    (h : b.pusherRunning = false) : (b.startPusher i).1.pusherRunning = false := by
  rw [EventsBuffer.startPusher]
  split
  · exact h
  · rfl

/-- When a callback is installed and the pusher is quiescent,
`startPusher i` (for `i ≥ 0`) delivers positions `i, i-1, …, 0`, i.e. the
first `i+1` stored events oldest-first. -/
theorem startPusher_delivers {T : Type} (b : EventsBuffer T) (i : Int)
    (hc : b.callbackSet = true) (hr : b.pusherRunning = false) :
    (b.startPusher i).2 = (b.events.take (i.toNat + 1)).reverse := by
  rw [EventsBuffer.startPusher]
  rw [if_neg (by simp [hc, hr])]

/-- `maybeDropOlderThen` keeps the front event (the cutoff is always below
the front time on the push path), keeps only a prefix of the deque, and
leaves the configuration and flags alone. -/
theorem maybeDropOlderThen_events {T : Type} (b : EventsBuffer T) (after : Int)
    (hs : timesDecreasing b.events)
    (hfront : ∀ p : Int × T, b.events.head? = some p → after < p.1) :
    (b.maybeDropOlderThen after).events.head? = b.events.head? ∧
    (∃ n, (b.maybeDropOlderThen after).events = b.events.take n) ∧
    (b.maybeDropOlderThen after).maxAge = b.maxAge ∧
    (b.maybeDropOlderThen after).callbackSet = b.callbackSet ∧
    (b.maybeDropOlderThen after).pusherRunning = b.pusherRunning := by
  rw [EventsBuffer.maybeDropOlderThen]
  split
  case isFalse => exact ⟨rfl, ⟨b.events.length, (List.take_length b.events).symm⟩,
    rfl, rfl, rfl⟩
  case isTrue hrate =>
    refine ⟨?hhead, ⟨_, rfl⟩, rfl, rfl, rfl⟩
    show (List.take (b.dropCutPos after + 1).toNat b.events).head? = b.events.head?
    cases hbe : b.events with
    | nil => simp
    | cons hd tl =>
      have hspec := binarySearchGo_spec (timeLePred b.events after) b.events.length 0
        (timeLePred_mono b.events after hs)
      have hr1 : 1 ≤ binarySearch 0 b.events.length (timeLePred b.events after) := by
        rw [binarySearch, Nat.sub_zero]
        by_contra hlt
        have hz : binarySearchGo 0 b.events.length (timeLePred b.events after) = 0 := by
          omega
        have hp0 := hspec.2.2.2 0 (by omega) (by simp [hbe])
        rw [timeLePred, hbe] at hp0
        simp only [List.get?_cons_zero] at hp0
        have := hfront hd (by rw [hbe]; rfl)
        simp only [decide_eq_true_eq] at hp0
        omega
      have hpos2 : (0 : Int) ≤ b.dropCutPos after := by
        rw [EventsBuffer.dropCutPos]
        split
        · refine le_trans (by omega) (le_max_left _ _)
        · omega
      have hn1 : 1 ≤ (b.dropCutPos after + 1).toNat := by omega
      cases hnn : (b.dropCutPos after + 1).toNat with
      | zero => omega
      | succ m => rw [List.take_succ_cons]; rfl

/-- What one `push` does to the deque: the assigned timestamp is
`max(now, front + 1)` (or `now` on an empty deque), it becomes the new
front (eviction never removes the just-pushed event when `maxAge > 0`), and
the sorted invariant is preserved. -/
theorem push_props {T : Type} (b : EventsBuffer T) (hA : 0 < b.maxAge)
    (hs : timesDecreasing b.events) (nowMs : Int) (ev : T) :
    (b.push nowMs ev).2.1 = (match b.events.head? with
      | none => nowMs * 1000
      | some p => max (nowMs * 1000) (p.1 + 1)) ∧
    (b.push nowMs ev).1.events.head? = some ((b.push nowMs ev).2.1, ev) ∧
    timesDecreasing (b.push nowMs ev).1.events ∧
    (b.push nowMs ev).1.maxAge = b.maxAge := by
  set now := nowMs * 1000 with hnow
  set time := (match b.events with
    | [] => now
    | (t, _) :: _ => if t ≥ now then t + 1 else now) with htimedef
  set b1 : EventsBuffer T :=
    { b with
        events := (time, ev) :: b.events,
        pusherEventsIdx := b.pusherEventsIdx + 1 } with hb1
  have hstep : b.push nowMs ev =
      ((b1.startPusher 0).1.maybeDropOlderThen (time - b.maxAge), time,
        (b1.startPusher 0).2) := by
    rw [EventsBuffer.push]
  have htimeSpec : time = (match b.events.head? with
      | none => now
      | some p => max now (p.1 + 1)) := by
    rw [htimedef]
    cases b.events with
    | nil => rfl
    | cons p tl =>
      obtain ⟨t, x⟩ := p
      simp only [List.head?_cons]
      by_cases hge : t ≥ now
      · rw [if_pos hge]; omega
      · rw [if_neg hge]; omega
  have hsorted1 : timesDecreasing ((time, ev) :: b.events) := by
    rw [timesDecreasing, List.pairwise_cons]
    refine ⟨?hgt, hs⟩
    intro q hq
    cases hbe : b.events with
    | nil => rw [hbe] at hq; exact absurd hq (List.not_mem_nil q)
    | cons p tl =>
      rw [hbe] at hq
      have hfront : p.1 < time := by
        rw [htimeSpec, hbe]
        simp only [List.head?_cons]
        omega
      rcases List.mem_cons.mp hq with hq1 | hq2
      · subst hq1; exact hfront
      · have hpq : q.1 < p.1 := by
          rw [hbe] at hs
          exact (List.pairwise_cons.mp hs).1 q hq2
        omega
  obtain ⟨hspE, hspA, hspC, hspD, hspL⟩ := startPusher_state b1 0
  have hsorted2 : timesDecreasing (b1.startPusher 0).1.events := by
    rw [hspE]; exact hsorted1
  have hfront2 : ∀ p : Int × T, (b1.startPusher 0).1.events.head? = some p →
      time - b.maxAge < p.1 := by
    intro p hp
    rw [hspE] at hp
    simp only [hb1, List.head?_cons, Option.some.injEq] at hp
    subst hp
    simp only []
    omega
  obtain ⟨hdH, hdPre, hdA, hdC, hdR⟩ :=
    maybeDropOlderThen_events ((b1.startPusher 0).1) (time - b.maxAge) hsorted2 hfront2
  refine ⟨?ht, ?hh, ?hsor, ?hage⟩
  · rw [hstep]; exact htimeSpec
  · rw [hstep]
    simp only []
    rw [hdH, hspE]
    rfl
  · rw [hstep]
    simp only []
    obtain ⟨n, hn⟩ := hdPre
    rw [hn, hspE]
    exact List.Pairwise.sublist (List.take_sublist n _) hsorted1
  · rw [hstep]
    simp only []
    rw [hdA, hspA]

/-- The front timestamp of the deque (the previously pushed event). -/
def headTime {T : Type} (b : EventsBuffer T) : Option Int :=
  b.events.head?.map Prod.fst

/-- A sequence of `push` calls, collecting the assigned timestamps in call
order. -/
def pushSeq {T : Type} (b : EventsBuffer T) : List (Int × T) → EventsBuffer T × List Int
  | [] => (b, [])
  | (nowMs, ev) :: rest =>
    let p := b.push nowMs ev
    let q := pushSeq p.1 rest
    (q.1, p.2.1 :: q.2)

/-- The claim's timestamp recurrence: the first push gets `now`, every
later one `max(now, previous + 1)` (all in microseconds). -/
def specTimes (prev : Option Int) : List Int → List Int
  | [] => []
  | now :: rest =>
    let t := match prev with | none => now | some p => max now (p + 1)
    t :: specTimes (some t) rest

theorem specTimes_cons (prev : Option Int) (now : Int) (rest : List Int) :
    specTimes prev (now :: rest) =
      (match prev with | none => now | some p => max now (p + 1)) ::
        specTimes (some (match prev with | none => now | some p => max now (p + 1)))
          rest := rfl

theorem specTimes_mono :
    ∀ (nows : List Int) (prev : Option Int),
    List.Pairwise (· < ·) (specTimes prev nows) ∧
    (∀ p t, prev = some p → t ∈ specTimes prev nows → p < t) := by
  intro nows
  induction nows with
  | nil => exact fun prev => ⟨List.Pairwise.nil, fun p t _ ht => absurd ht (List.not_mem_nil t)⟩
  | cons now rest ih =>
    intro prev
    rw [specTimes_cons]
    constructor
    · rw [List.pairwise_cons]
      exact ⟨fun y hy => (ih (some _)).2 _ y rfl hy, (ih (some _)).1⟩
    · intro p t hprev ht
      subst hprev
      rcases List.mem_cons.mp ht with h1 | h2
      · subst h1
        simp only []
        omega
      · have h3 := (ih (some _)).2 _ t rfl h2
        simp only [] at h3
        omega

/-- Each push over a valid buffer assigns timestamps by the claimed
recurrence and keeps the deque sorted. -/
theorem pushSeq_props {T : Type} (b : EventsBuffer T) (hA : 0 < b.maxAge)
    (hs : timesDecreasing b.events) (pushes : List (Int × T)) :
    (pushSeq b pushes).2 = specTimes (headTime b) (pushes.map fun p => p.1 * 1000) ∧
    timesDecreasing (pushSeq b pushes).1.events := by
  induction pushes generalizing b with
  | nil => exact ⟨rfl, hs⟩
  | cons pr rest ih =>
    obtain ⟨nowMs, ev⟩ := pr
    obtain ⟨ht, hh, hsor, hage⟩ := push_props b hA hs nowMs ev
    have ihr := ih (b.push nowMs ev).1 (by rw [hage]; exact hA) hsor
    have hht : headTime (b.push nowMs ev).1 = some (b.push nowMs ev).2.1 := by
      rw [headTime, hh]
      rfl
    have htt : (b.push nowMs ev).2.1 = (match headTime b with
        | none => nowMs * 1000
        | some p => max (nowMs * 1000) (p + 1)) := by
      rw [ht, headTime]
      cases b.events.head? with
      | none => rfl
      | some q => rfl
    refine ⟨?hts, ihr.2⟩
    show (b.push nowMs ev).2.1 :: (pushSeq (b.push nowMs ev).1 rest).2 = _
    rw [List.map_cons, specTimes_cons, ihr.1, hht, htt]

/-- **C6.** For every sequence of `push` calls on a fresh `EventsBuffer`
(with a positive `maxAge`), each pushed event is assigned the timestamp
`max(now_in_microseconds, previous_timestamp + 1)` (the first simply
`now`), so the assigned timestamps are unique and strictly increasing, and
the stored deque holds strictly decreasing times from newest to oldest. -/
theorem eventsBuffer_timestamps (T : Type) (maxAge : Int) (hA : 0 < maxAge)
    (pushes : List (Int × T)) :
    (pushSeq (EventsBuffer.new T maxAge) pushes).2 =
      specTimes none (pushes.map fun p => p.1 * 1000) ∧
    List.Pairwise (· < ·) (pushSeq (EventsBuffer.new T maxAge) pushes).2 ∧
    timesDecreasing (pushSeq (EventsBuffer.new T maxAge) pushes).1.events := by
  have hprops := pushSeq_props (EventsBuffer.new T maxAge) hA List.Pairwise.nil pushes
  refine ⟨hprops.1, ?hinc, hprops.2⟩
  rw [hprops.1]
  exact (specTimes_mono _ none).1

/-- **C6 (witness).** Two pushes with a clock that runs backwards: the
second timestamp is bumped to `previous + 1`. -/
theorem eventsBuffer_timestamps_witness :
    (pushSeq (EventsBuffer.new Unit 1000000) [(5, ()), (3, ())]).2 = [5000, 5001] :=
  (eventsBuffer_timestamps Unit 1000000 (by decide) [(5, ()), (3, ())]).1.trans
    (by decide)

/-- A push onto a subscribed, quiescent buffer delivers exactly the new
event to the callback. -/
theorem push_delivers {T : Type} (b : EventsBuffer T) (hc : b.callbackSet = true)
    (hr : b.pusherRunning = false) (nowMs : Int) (ev : T) :
    (b.push nowMs ev).2.2 = [((b.push nowMs ev).2.1, ev)] := by
  have h1 : (b.push nowMs ev).2.2 =
      (EventsBuffer.startPusher
        { b with events := ((b.push nowMs ev).2.1, ev) :: b.events,
                 pusherEventsIdx := b.pusherEventsIdx + 1 } 0).2 := rfl
  rw [h1, startPusher_delivers
    { b with events := ((b.push nowMs ev).2.1, ev) :: b.events,
             pusherEventsIdx := b.pusherEventsIdx + 1 } 0 hc hr]
  rfl

set_option maxHeartbeats 1000000 in
/-- **C5.** `EventsBuffer.subscribe(since, callback)` fails with
`callback_already_set` when a callback is installed; fails with
`too_far_in_the_past` when `since < now − maxAge` (microseconds); and
otherwise installs the callback and delivers exactly the buffered events
with `time > since`, in strictly increasing time order, after which every
future push is delivered to the callback. -/
theorem eventsBuffer_subscribe_spec {T : Type} (b : EventsBuffer T)
    (since nowMs : Int) (hsorted : timesDecreasing b.events)
    (hnr : b.pusherRunning = false) :
    (b.callbackSet = true → b.subscribe since nowMs = .error .callback_already_set) ∧
    (b.callbackSet = false → since < nowMs * 1000 - b.maxAge →
      b.subscribe since nowMs = .error .too_far_in_the_past) ∧
    (b.callbackSet = false → ¬ since < nowMs * 1000 - b.maxAge →
      ∃ b2, b.subscribe since nowMs =
          .ok (b2, (b.events.filter fun p => decide (since < p.1)).reverse) ∧
        List.Pairwise (fun p q : Int × T => p.1 < q.1)
          ((b.events.filter fun p => decide (since < p.1)).reverse) ∧
        b2.callbackSet = true ∧ b2.pusherRunning = false ∧
        (∀ now2 ev, (b2.push now2 ev).2.2 = [((b2.push now2 ev).2.1, ev)])) := by
  have hpairrev : List.Pairwise (fun p q : Int × T => p.1 < q.1)
      ((b.events.filter fun p => decide (since < p.1)).reverse) := by
    rw [List.pairwise_reverse]
    exact List.Pairwise.sublist (List.filter_sublist b.events) hsorted
  refine ⟨?hcase1, ?hcase2, ?hcase3⟩
  · intro hcb
    rw [EventsBuffer.subscribe, if_pos hcb]
  · intro hcb hpast
    rw [EventsBuffer.subscribe, if_neg (by simp [hcb]), if_pos hpast]
  · intro hcb hnot
    have hstep : b.subscribe since nowMs =
        (if ((binarySearch 0 b.events.length (timeLePred b.events since) : Int) - 1) ≥ 0
         then .ok (EventsBuffer.startPusher { b with callbackSet := true }
           ((binarySearch 0 b.events.length (timeLePred b.events since) : Int) - 1))
         else .ok ({ b with callbackSet := true }, [])) := by
      rw [EventsBuffer.subscribe, if_neg (by simp [hcb]), if_neg hnot]
    have hspec := binarySearchGo_spec (timeLePred b.events since) b.events.length 0
      (timeLePred_mono b.events since hsorted)
    have hbs : binarySearch 0 b.events.length (timeLePred b.events since) =
        binarySearchGo 0 b.events.length (timeLePred b.events since) := by
      rw [binarySearch, Nat.sub_zero]
    set r := binarySearch 0 b.events.length (timeLePred b.events since) with hrdef
    have hrlen : r ≤ b.events.length := by rw [hbs]; omega
    have hfilter : b.events.filter (fun p => decide (since < p.1)) = b.events.take r := by
      refine filter_eq_take since b.events r hrlen ?hfa ?htu
      · intro k hk p hp
        have hf := hspec.2.2.1 k (by omega) (by omega)
        rw [timeLePred, hp] at hf
        simp only [decide_eq_false_iff_not, not_le] at hf
        exact hf
      · intro k hk p hp
        have hklen : k < b.events.length := by
          by_contra hge
          rw [List.get?_eq_none.mpr (by omega)] at hp
          exact absurd hp (by simp)
        have ht := hspec.2.2.2 k (by omega) (by omega)
        rw [timeLePred, hp] at ht
        simpa using ht
    rw [hstep]
    by_cases hge : ((r : Int) - 1) ≥ 0
    · rw [if_pos hge]
      refine ⟨(EventsBuffer.startPusher { b with callbackSet := true } ((r : Int) - 1)).1,
        ?hok, hpairrev, ?hcb2, ?hpr2, ?hfut⟩
      · have htk : (((r : Int) - 1).toNat + 1) = r := by omega
        have hdel2 : (EventsBuffer.startPusher { b with callbackSet := true }
            ((r : Int) - 1)).2 = (b.events.take r).reverse := by
          rw [startPusher_delivers { b with callbackSet := true } ((r : Int) - 1) rfl hnr,
            htk]
        rw [hfilter]
        show Except.ok _ = Except.ok (_, (b.events.take r).reverse)
        rw [← hdel2]
      · exact (startPusher_state _ _).2.2.1
      · exact startPusher_running_false _ _ hnr
      · intro now2 ev
        refine push_delivers _ ?hcc ?hrr now2 ev
        · exact ((startPusher_state _ _).2.2.1).trans rfl
        · exact startPusher_running_false _ _ hnr
    · rw [if_neg hge]
      have hr0 : r = 0 := by omega
      refine ⟨{ b with callbackSet := true }, ?hok0, hpairrev, rfl, hnr, ?hfut0⟩
      · rw [hfilter, hr0]
        rfl
      · intro now2 ev
        exact push_delivers { b with callbackSet := true } rfl hnr now2 ev

/-- **C5 (witness).** Push at t=1 s and t=2 s, subscribe at
`since = 1 500 000 µs`: only the second event is replayed. -/
theorem eventsBuffer_subscribe_spec_witness :
    (match ((((EventsBuffer.new Unit 600000000).push 1000 ()).1.push 2000 ()).1).subscribe
        1500000 2000 with
      | .ok p => p.2
      | .error _ => []) = [(2000000, ())] := by
  obtain ⟨b2, hok, h2, h3, h4, h5⟩ :=
    (eventsBuffer_subscribe_spec
      ((((EventsBuffer.new Unit 600000000).push 1000 ()).1.push 2000 ()).1)
      1500000 2000 (by rw [timesDecreasing]; decide) (by decide)).2.2
      (by decide) (by decide)
  rw [hok]
  show (List.filter (fun p => decide ((1500000 : Int) < p.1))
      ((((EventsBuffer.new Unit 600000000).push 1000 ()).1.push 2000 ()).1.events)).reverse =
    [(2000000, ())]
  decide


/-! ## C7: EngineRunner `exit` emission (engineRunner.ts)

`EngineRunnerImpl` keeps `state : State` (None < Starting < Running <
Stopping < Stopped), `engineProcess : null | ChildProcess` and
`udpServer : null | dgram.Socket`.  We model the fields relevant to the
`exit` event: whether the process handle is non-null, whether the UDP
server handle is non-null, and whether `udpServer.close()` has been
requested (the handle itself is nulled later, by the socket's own
`close` event).  `killEngine` only sends signals and arms a kill timer,
so it touches none of the modelled fields. -/

inductive ErState
  | noneSt
  | starting
  | running
  | stopping
  | stopped
  deriving DecidableEq, Repr, Fintype

/-- Numeric value of the TS `enum State`, for the `>=` comparisons. -/
def ErState.idx : ErState → Nat
  | .noneSt => 0
  | .starting => 1
  | .running => 2
  | .stopping => 3
  | .stopped => 4

/-- `a >= b` on the TS enum. -/
def erStateGE (a b : ErState) : Bool := b.idx ≤ a.idx

structure RunnerM where
  state : ErState
  /-- `this.engineProcess != null` -/
  engineProcess : Bool
  /-- `this.udpServer != null` -/
  udpServer : Bool
  /-- `this.udpServer.close()` has been called -/
  udpCloseRequested : Bool
  deriving DecidableEq, Repr, Fintype

/-- `maybeEmitExit()`: transition to `Stopped` and emit `exit` (the
returned flag) iff `state == Stopping && engineProcess == null &&
udpServer == null`. -/
def maybeEmitExit (s : RunnerM) : RunnerM × Bool :=
  if s.state = ErState.stopping ∧ s.engineProcess = false ∧ s.udpServer = false then
    ({ s with state := ErState.stopped }, true)
  else (s, false)

/-- `close()`: return if `state >= Stopping`; else set `Stopping`, run
`killEngine()` (no modelled field), call `udpServer.close()` if the
server exists, then `maybeEmitExit()`. -/
def closeRunner (s : RunnerM) : RunnerM × Bool :=
  if erStateGE s.state ErState.stopping then (s, false)
  else
    maybeEmitExit
      (if s.udpServer then
        { s with state := ErState.stopping, udpCloseRequested := true }
      else { s with state := ErState.stopping })

/-- `handleError(err)`: return if `state >= Stopping`; else emit
`error` (not modelled: C7 counts only `exit` events) and `close()`. -/
def handleErrorRunner (s : RunnerM) : RunnerM × Bool :=
  if erStateGE s.state ErState.stopping then (s, false)
  else closeRunner s

/-- The `engineProcess.on('exit', (code, signal))` handler: null the
process handle, call `handleError` when `code !== 0` else `close()`,
then `maybeEmitExit()`.  Only the truth value of `code !== 0` matters,
so it is taken as a boolean argument. -/
def procExitCore (s : RunnerM) (nonzero : Bool) : RunnerM × Bool :=
  let s1 : RunnerM := { s with engineProcess := false }
  let p := if nonzero then handleErrorRunner s1 else closeRunner s1
  let q := maybeEmitExit p.1
  (q.1, p.2 || q.2)

/-- The `udpServer.on('close')` handler: null the server handle, then
`maybeEmitExit()`. -/
def udpCloseHandler (s : RunnerM) : RunnerM × Bool :=
  maybeEmitExit { s with udpServer := false }

/-- The interleaved occurrences the claim quantifies over: `close()`
calls, engine-process exit events, and UDP-socket close events. -/
inductive REvent
  | close
  | procExit (code : Int)
  | udpClose

/-- One occurrence.  The returned flag records whether `exit` was
emitted while handling it. -/
def rStep (s : RunnerM) : REvent → RunnerM × Bool
  | .close => closeRunner s
  | .procExit code => procExitCore s (decide (¬code = 0))
  | .udpClose => udpCloseHandler s

/-- When an occurrence can physically happen: `close()` at any time; a
process `exit` event only while the process handle is non-null; the
socket `close` event only after `close()` was requested on a live
socket. -/
def rEnabled (s : RunnerM) : REvent → Bool
  | .close => true
  | .procExit _ => s.engineProcess
  | .udpClose => s.udpServer && s.udpCloseRequested

/-- A run is valid when every occurrence is enabled in the state where
it happens. -/
def validRun (s : RunnerM) : List REvent → Bool
  | [] => true
  | e :: rest => rEnabled s e && validRun (rStep s e).1 rest

/-- Run a sequence of occurrences, counting emitted `exit` events. -/
def rRun (s : RunnerM) : List REvent → RunnerM × Nat
  | [] => (s, 0)
  | e :: rest =>
    let p := rStep s e
    let q := rRun p.1 rest
    (q.1, (if p.2 then 1 else 0) + q.2)

/-- States the class can actually be in between occurrences:
`Stopped` only with both handles null; never `Stopping` with both
handles already null (`maybeEmitExit` converts that combination to
`Stopped` before control returns); a UDP close is pending only once
`close()` has run, i.e. in state `>= Stopping`. -/
def RunnerWF (s : RunnerM) : Bool :=
  (!(decide (s.state = ErState.stopped)) || (!s.engineProcess && !s.udpServer)) &&
  (!(decide (s.state = ErState.stopping) && !s.engineProcess && !s.udpServer)) &&
  (!(s.udpCloseRequested && s.udpServer) || erStateGE s.state ErState.stopping)

/-- Finite alphabet for deciding the single-step lemma: `procExit`
branches only on whether `code !== 0`. -/
inductive AEvent
  | close
  | procExitZ
  | procExitNZ
  | udpClose
  deriving DecidableEq, Fintype

def aStep (s : RunnerM) : AEvent → RunnerM × Bool
  | .close => closeRunner s
  | .procExitZ => procExitCore s false
  | .procExitNZ => procExitCore s true
  | .udpClose => udpCloseHandler s

def aEnabled (s : RunnerM) : AEvent → Bool
  | .close => true
  | .procExitZ => s.engineProcess
  | .procExitNZ => s.engineProcess
  | .udpClose => s.udpServer && s.udpCloseRequested

def toAEvent : REvent → AEvent
  | .close => .close
  | .procExit code => if code = 0 then .procExitZ else .procExitNZ
  | .udpClose => .udpClose

theorem rStep_eq_aStep (s : RunnerM) (e : REvent) :
    rStep s e = aStep s (toAEvent e) := by
  cases e with
  | close => rfl
  | procExit code =>
    by_cases h : code = 0 <;> simp [rStep, toAEvent, aStep, h]
  | udpClose => rfl

theorem rEnabled_eq_aEnabled (s : RunnerM) (e : REvent) :
    rEnabled s e = aEnabled s (toAEvent e) := by
  cases e with
  | close => rfl
  | procExit code =>
    by_cases h : code = 0 <;> simp [rEnabled, toAEvent, aEnabled, h]
  | udpClose => rfl

/-- Single-step facts, checked over all 40 well-formed states and 4
abstract events: well-formedness is preserved; an emission leaves both
handles null, in state `Stopped`, and cannot start from `Stopped`; the
post-state is `Stopped` iff the pre-state was or the step emitted; and
`Stopped` is absorbing with no further emission. -/
theorem aStep_props : ∀ (s : RunnerM) (e : AEvent),
    RunnerWF s = true → aEnabled s e = true →
    (RunnerWF (aStep s e).1 = true ∧
     ((aStep s e).2 = true →
       (aStep s e).1.engineProcess = false ∧ (aStep s e).1.udpServer = false ∧
       (aStep s e).1.state = ErState.stopped ∧ ¬s.state = ErState.stopped) ∧
     ((aStep s e).1.state = ErState.stopped ↔
       (s.state = ErState.stopped ∨ (aStep s e).2 = true)) ∧
     (s.state = ErState.stopped → (aStep s e).1 = s ∧ (aStep s e).2 = false)) := by
  decide

/-- Run-level invariant: well-formedness is preserved, the run ends
`Stopped` iff it started `Stopped` or emitted, and the number of `exit`
emissions is 1 when the run moved into `Stopped` and 0 otherwise. -/
theorem rRun_props (evs : List REvent) : ∀ (s : RunnerM),
    RunnerWF s = true → validRun s evs = true →
    RunnerWF (rRun s evs).1 = true ∧
    ((rRun s evs).1.state = ErState.stopped ↔
      (s.state = ErState.stopped ∨ 1 ≤ (rRun s evs).2)) ∧
    ((rRun s evs).2 =
      if (rRun s evs).1.state = ErState.stopped ∧ ¬s.state = ErState.stopped
      then 1 else 0) := by
  induction evs with
  | nil =>
    intro s hwf _
    refine ⟨hwf, by simp [rRun], by simp [rRun]⟩
  | cons e rest ih =>
    intro s hwf hv
    rw [validRun, Bool.and_eq_true] at hv
    obtain ⟨hen, hv'⟩ := hv
    obtain ⟨hwf', hemit, hiff, -⟩ :=
      aStep_props s (toAEvent e) hwf (by rw [← rEnabled_eq_aEnabled]; exact hen)
    rw [rStep_eq_aStep] at hv'
    obtain ⟨ihwf, ihiff, ihcount⟩ := ih (aStep s (toAEvent e)).1 hwf' hv'
    have hrun : rRun s (e :: rest) =
        ((rRun (aStep s (toAEvent e)).1 rest).1,
         (if (aStep s (toAEvent e)).2 = true then 1 else 0) +
           (rRun (aStep s (toAEvent e)).1 rest).2) := by
      simp [rRun, rStep_eq_aStep]
    rw [hrun]
    by_cases hb : (aStep s (toAEvent e)).2 = true
    · obtain ⟨-, -, hst, hns⟩ := hemit hb
      have hzero : (rRun (aStep s (toAEvent e)).1 rest).2 = 0 := by
        rw [ihcount, if_neg]
        intro hcontra
        exact hcontra.2 hst
      have hfinal : (rRun (aStep s (toAEvent e)).1 rest).1.state = ErState.stopped :=
        ihiff.mpr (Or.inl hst)
      refine ⟨ihwf, ?_, ?_⟩
      · simp [hfinal, hb, hzero]
      · simp [hb, hzero, hfinal, hns]
    · have hb' : (aStep s (toAEvent e)).2 = false := by
        cases hres : (aStep s (toAEvent e)).2
        · rfl
        · exact absurd hres hb
      have hsame : ((aStep s (toAEvent e)).1.state = ErState.stopped ↔
          s.state = ErState.stopped) := by
        rw [hiff]
        simp [hb']
      refine ⟨ihwf, ?_, ?_⟩
      · rw [hb']
        simp only [if_false, Bool.false_eq_true, Nat.zero_add]
        rw [ihiff, hsame]
      · rw [hb']
        simp only [if_false, Bool.false_eq_true, Nat.zero_add]
        rw [ihcount]
        simp [hsame]

/-- Well-formedness and enabledness propagate to the state right before
any occurrence of the run. -/
theorem validRun_before (l1 : List REvent) : ∀ (s : RunnerM) (e : REvent) (l2 : List REvent),
    RunnerWF s = true → validRun s (l1 ++ e :: l2) = true →
    RunnerWF (rRun s l1).1 = true ∧ rEnabled (rRun s l1).1 e = true := by
  induction l1 with
  | nil =>
    intro s e l2 hwf hv
    rw [List.nil_append, validRun, Bool.and_eq_true] at hv
    exact ⟨hwf, hv.1⟩
  | cons f rest ih =>
    intro s e l2 hwf hv
    rw [List.cons_append, validRun, Bool.and_eq_true] at hv
    obtain ⟨hen, hv'⟩ := hv
    have hwf' : RunnerWF (rStep s f).1 = true := by
      rw [rStep_eq_aStep]
      exact (aStep_props s (toAEvent f) hwf
        (by rw [← rEnabled_eq_aEnabled]; exact hen)).1
    have hstep : rRun s (f :: rest) =
        ((rRun (rStep s f).1 rest).1,
         (if (rStep s f).2 = true then 1 else 0) + (rRun (rStep s f).1 rest).2) := by
      simp [rRun]
    rw [hstep]
    exact ih (rStep s f).1 e l2 hwf' hv'

set_option maxHeartbeats 800000 in
/-- **C7.** For every well-formed `EngineRunner` state and every valid
interleaving of `close()` calls (any number, from any state) with
engine-process exit and UDP-socket close events: (1) the `exit` event
is emitted at most once over the whole run; (2) whenever a step emits
`exit`, the engine process handle and the UDP server handle are both
null immediately after that step (the emission itself is deferred to
the next scheduling tick by `process.nextTick`); (3) if the run ends
with both handles null in a state `>= Stopping`, having started in a
state other than `Stopped`, then `exit` was emitted exactly once. -/
theorem engineRunner_exit_exactly_once (s : RunnerM) (evs : List REvent)
    (hwf : RunnerWF s = true) (hv : validRun s evs = true) :
    (rRun s evs).2 ≤ 1 ∧
    (∀ l1 e l2, evs = l1 ++ e :: l2 →
      (rStep (rRun s l1).1 e).2 = true →
      (rStep (rRun s l1).1 e).1.engineProcess = false ∧
      (rStep (rRun s l1).1 e).1.udpServer = false) ∧
    (¬s.state = ErState.stopped →
      (rRun s evs).1.engineProcess = false →
      (rRun s evs).1.udpServer = false →
      erStateGE (rRun s evs).1.state ErState.stopping = true →
      (rRun s evs).2 = 1) := by
  obtain ⟨hwfF, hiffF, hcountF⟩ := rRun_props evs s hwf hv
  refine ⟨?_, ?_, ?_⟩
  · rw [hcountF]
    split
    · exact Nat.le_refl 1
    · exact Nat.zero_le 1
  · intro l1 e l2 heq hemit
    obtain ⟨hwfp, henp⟩ := validRun_before l1 s e l2 hwf (by rw [← heq]; exact hv)
    rw [rStep_eq_aStep] at hemit ⊢
    obtain ⟨hp, hu, -, -⟩ :=
      (aStep_props (rRun s l1).1 (toAEvent e) hwfp
        (by rw [← rEnabled_eq_aEnabled]; exact henp)).2.1 hemit
    exact ⟨hp, hu⟩
  · intro hns hproc hudp hge
    have hstopped : (rRun s evs).1.state = ErState.stopped := by
      rw [RunnerWF, Bool.and_eq_true, Bool.and_eq_true] at hwfF
      obtain ⟨⟨-, h2⟩, -⟩ := hwfF
      cases hst : (rRun s evs).1.state with
      | noneSt => rw [hst] at hge; exact absurd hge (by decide)
      | starting => rw [hst] at hge; exact absurd hge (by decide)
      | running => rw [hst] at hge; exact absurd hge (by decide)
      | stopping =>
        rw [hst, hproc, hudp] at h2
        exact absurd h2 (by decide)
      | stopped => rfl
    rw [hcountF, if_pos ⟨hstopped, hns⟩]

/-- **C7 (witness).** From a running engine (process spawned, UDP
server up), the run `close(); process exit 0; socket close` is valid
and emits `exit` exactly once. -/
theorem engineRunner_exit_exactly_once_witness :
    RunnerWF ⟨ErState.running, true, true, false⟩ = true ∧
    (rRun ⟨ErState.running, true, true, false⟩
      [REvent.close, REvent.procExit 0, REvent.udpClose]).2 = 1 := by
  refine ⟨by decide, ?_⟩
  exact (engineRunner_exit_exactly_once ⟨ErState.running, true, true, false⟩
    [REvent.close, REvent.procExit 0, REvent.udpClose]
    (by decide) (by decide)).2.2 (by decide) (by decide) (by decide) (by decide)

end RecoilAutohost
